import Mathlib

/-!
# go-db3 `schema` package: DDL rendering and the foreign-key action codec

A shallow embedding of `src/schema/model.go`, `src/schema/declare-common.go` and
`src/schema/declare-sql.go`.

Conventions of the embedding

* A Go `string` is a Lean `String` (a sequence of code points); Go's
  `len([]rune(s))` is `String.length`.  Byte slices handed to the text codecs
  are the bytes of such a string, so `[]byte(s)` / `string(b)` are the identity.
* A Go `int` is an `Int` (or a `Nat` where the value is a length).
* `[]*T` is `List T`; pointers are followed, `nil` elements are not modelled.
* `bytes.Buffer` is the `String` written so far; `WriteString` appends.
* The local variable `first` and the buffer captured by the closure `indented`
  are threaded explicitly (`Buf`).
-/

namespace Schema

/-! ## Data model (`model.go`) -/

/-- Modelled from the spec: the `Literal` variant (its declaration is not part of
`model.go`): a closed sum over null, numeric text, quoted-string text and raw
expression text. -/
inductive Literal where
  | Null : Literal
  | Numeric : String → Literal
  | QuotedString : String → Literal
  | RawExpression : String → Literal
deriving DecidableEq

/-- The double quote character. -/
def dquote : Char := Char.ofNat 34

/-- Doubling of every embedded double quote character. -/
def escapeQuotes : List Char → List Char
  | [] => []
  | c :: cs => if c = dquote then dquote :: dquote :: escapeQuotes cs else c :: escapeQuotes cs

/-- Modelled from the spec: `Literal.SQLLiteral` (declared outside `model.go`):
numeric and raw-expression text verbatim, a quoted string re-wrapped in double
quotes with embedded double quotes doubled, null as the keyword. -/
def Literal.SQLLiteral : Literal → String
  | .Null => "null"
  | .Numeric s => s
  | .QuotedString s =>
    String.singleton dquote ++ String.mk (escapeQuotes s.data) ++ String.singleton dquote
  | .RawExpression s => s

/-- Modelled from the spec: the `Generated` column spec (declared outside
`model.go`): expression text and a storage mode printed with `%s`. -/
structure Generated where
  Expression : String
  Storage : String
deriving DecidableEq

/-- Modelled from the spec: storage mode `virtual`. -/
def Virtual : String := "virtual"

/-- Modelled from the spec: storage mode `stored`. -/
def Stored : String := "stored"

/-- Modelled from the spec: `ColumnType` is a string type whose constants are
declared outside `model.go`; the values are the ones printed by the example. -/
abbrev ColumnType := String

/-- Modelled from the spec: column type `uuid`. -/
def UUID : ColumnType := "uuid"

/-- Modelled from the spec: column type `text`. -/
def Text : ColumnType := "text"

/-- Modelled from the spec: column type `timestamp`. -/
def Timestamp : ColumnType := "timestamp"

/-- Modelled from the spec: column type `int` (Go constant `Int`). -/
def Int_ : ColumnType := "int"

/-- Struct `Column`, with the `Generated` field that `declare-sql.go` reads. -/
structure Column where
  Name : String
  Type_ : ColumnType := ""
  Nullable : Bool := false
  Default : Option Literal := none
  Generated : Option Generated := none
  Comment : String := ""
deriving DecidableEq

/-- Type `ForeignKeyAction`, a Go `int`. -/
abbrev ForeignKeyAction := Int

/-- Constant `SetNull = ForeignKeyAction(iota + 1)`. -/
def SetNull : ForeignKeyAction := 1

/-- Constant `SetDefault`. -/
def SetDefault : ForeignKeyAction := 2

/-- Constant `Cascade`. -/
def Cascade : ForeignKeyAction := 3

/-- Constant `Restrict`. -/
def Restrict : ForeignKeyAction := 4

/-- Constant `NoAction`. -/
def NoAction : ForeignKeyAction := 5

/-- Struct `ForeignKey`. -/
structure ForeignKey where
  ChildKey : List String := []
  ParentTable : String := ""
  ParentKey : List String := []
  OnDelete : ForeignKeyAction := 0
  OnUpdate : ForeignKeyAction := 0
deriving DecidableEq

/-- Struct `Index`. -/
structure Index where
  Name : String := ""
  Unique : Bool := false
  Columns : List String := []
deriving DecidableEq

/-- Struct `Table`. -/
structure Table where
  Name : String
  Columns : List Column := []
  Indices : List Index := []
  PK : List String := []
  ForeignKeys : List ForeignKey := []
  WithoutRowID : Bool := false
  Strict : Bool := false
deriving DecidableEq

/-- Struct `Database`. -/
structure Database where
  Tables : List Table := []
deriving DecidableEq

/-! ## Lookup helpers (`model.go`) -/

/-- Loop of `Database.HasTable`: linear scan with early return. -/
def HasTable_loop (tablename : String) : List Table → Bool
  | [] => false
  | t :: rest => if t.Name = tablename then true else HasTable_loop tablename rest

/-- Method `Database.HasTable`. -/
def Database.HasTable (db : Database) (tablename : String) : Bool :=
  HasTable_loop tablename db.Tables

/-- Loop of `Database.CheckTables`: the loop over `names`, appending to `missing`. -/
def CheckTables_loop (db : Database) : List String → List String → List String
  | [], missing => missing
  | n :: rest, missing =>
    if !db.HasTable n then CheckTables_loop db rest (missing ++ [n])
    else CheckTables_loop db rest missing

/-- Method `Database.CheckTables`; `missing` starts as the nil slice. -/
def Database.CheckTables (db : Database) (names : List String) : List String :=
  CheckTables_loop db names []

/-! ## Foreign-key action codec (`model.go`) -/

/-- Function `fkString`: the `switch` as a chain of comparisons. -/
def fkString (a : ForeignKeyAction) : String × Bool :=
  if a = 0 then ("", true)
  else if a = SetNull then ("set null", true)
  else if a = SetDefault then ("set default", true)
  else if a = Cascade then ("cascade", true)
  else if a = Restrict then ("restrict", true)
  else if a = NoAction then ("no action", true)
  else ("", false)

/-- Function `fkValue`: the `switch` as a chain of comparisons. -/
def fkValue (s : String) : ForeignKeyAction × Bool :=
  if s = "" then (0, true)
  else if s = "set null" then (SetNull, true)
  else if s = "set default" then (SetDefault, true)
  else if s = "cascade" then (Cascade, true)
  else if s = "restrict" then (Restrict, true)
  else if s = "no action" then (NoAction, true)
  else (0, false)

/-- Method `ForeignKeyAction.String`. -/
def ForeignKeyAction.String (a : ForeignKeyAction) : String :=
  let (s, ok) := fkString a
  if ok then s else "<INVALID>"

/-- The error values of the codec. -/
inductive CodecError where
  | ErrInvalidForeignKeyAction : CodecError
  | JSONSyntax : CodecError
deriving DecidableEq

/-- Method `ForeignKeyAction.MarshalText` on receiver value `a`. -/
def MarshalText (a : ForeignKeyAction) : Except CodecError String :=
  let (s, ok) := fkString a
  if ok then .ok s else .error .ErrInvalidForeignKeyAction

/-- Method `ForeignKeyAction.UnmarshalText`: the receiver's old value `a` and the input
`b`; the result is the error (if any) and the receiver's value afterwards. -/
def UnmarshalText (a : ForeignKeyAction) (b : String) : Option CodecError × ForeignKeyAction :=
  let (v, ok) := fkValue b
  if ok then (none, v) else (some .ErrInvalidForeignKeyAction, a)

/-- Method `ForeignKeyAction.UnmarshalJSON`, with the result of `json.Unmarshal(b, &s)`
taken as input: `none` when the library reports an error, `some s` when the
JSON input is a string with content `s`. -/
def UnmarshalJSON (a : ForeignKeyAction) (decoded : Option String) :
    Option CodecError × ForeignKeyAction :=
  match decoded with
  | none => (some .JSONSyntax, a)
  | some s =>
    let (v, ok) := fkValue s
    if ok then (none, v) else (some .ErrInvalidForeignKeyAction, a)

/-! ## Grid measuring (`declare-common.go`) -/

/-- Function `measure_cell`: the number of runes. -/
def measure_cell (s : String) : Nat := s.length

/-- One iteration of the loop of `measure_cells` at index `i`. -/
def measure_cells_step (col_widths : List Nat) (i : Nat) (cell : String) : List Nat :=
  let w := measure_cell cell
  if i < col_widths.length then
    if w > col_widths.getD i 0 then col_widths.set i w else col_widths
  else col_widths ++ [w]

/-- The loop `for i := range row` of `measure_cells`, from index `i` on. -/
def measure_cells_loop : List String → Nat → List Nat → List Nat
  | [], _, col_widths => col_widths
  | cell :: rest, i, col_widths =>
    measure_cells_loop rest (i + 1) (measure_cells_step col_widths i cell)

/-- Function `measure_cells`. -/
def measure_cells (row : List String) (col_widths : List Nat) : List Nat :=
  measure_cells_loop row 0 col_widths

/-! ## DDL generation (`declare-sql.go`) -/

/-- Constant `TemporaryTable = CreateFlag(1)`. -/
def TemporaryTable : Int := 1

/-- The loop over `flags` that sets `temporary`. -/
def temporary_loop : List Int → String → String
  | [], temporary => temporary
  | f :: rest, temporary =>
    temporary_loop rest (if f = TemporaryTable then "temporary" else temporary)

/-- The buffer `out` together with the captured variable `first`. -/
structure Buf where
  out : String
  first : Bool
deriving DecidableEq

/-- The closure `indented`. -/
def indented (b : Buf) : Buf :=
  let b1 : Buf := if b.first then { b with first := false } else { b with out := b.out.push ',' }
  { b1 with out := b1.out ++ "\n    " }

/-- The attribute list `attrs` of a column. -/
def column_attrs (f : Column) : List String :=
  let attrs : List String := []
  let attrs := if !f.Nullable then attrs ++ ["not null"] else attrs
  let attrs := match f.Default with
    | some d => attrs ++ ["default " ++ d.SQLLiteral]
    | none => attrs
  let attrs := match f.Generated with
    | some g => attrs ++ ["generated always as (" ++ g.Expression ++ ") " ++ g.Storage]
    | none => attrs
  attrs

/-- The grid row built for one column. -/
def column_row (f : Column) : List String :=
  let row : List String := [f.Name]
  let row := if f.Type_ ≠ "" then row ++ [f.Type_] else row
  let attrs := column_attrs f
  if attrs.length > 0 then
    let row := if row.length < 2 then row ++ [""] else row
    row ++ [String.intercalate " " attrs]
  else row

/-- The first loop over `t.Columns`: builds `grid` and `col_widths`. -/
def build_grid : List Column → List (List String) × List Nat → List (List String) × List Nat
  | [], acc => acc
  | f :: rest, (grid, col_widths) =>
    let row := column_row f
    build_grid rest (grid ++ [row], measure_cells row col_widths)

/-- The padding writes: 8-space blocks while `n >= 8`, then the first `n`
characters of the 8-space string. -/
def pad_loop (out : String) : Nat → String
  | n + 8 => pad_loop (out ++ "        ") n
  | n => out ++ String.mk ("        ".data.take n)

/-- The loop `for col_idx := range row`, from index `col_idx` on; `rowlen` is
`len(row)`. -/
def render_cells (col_widths : List Nat) (rowlen : Nat) : List String → Nat → String → String
  | [], _, out => out
  | cell :: rest, col_idx, out =>
    let out := if col_idx > 0 then out ++ "  " else out
    let col := if col_idx < col_widths.length then col_widths.getD col_idx 0 else 0
    let adv := measure_cell cell
    let col := if col < adv then adv else col
    let out := out ++ cell
    let out := if col > adv ∧ col_idx + 1 < rowlen then pad_loop out (col - adv) else out
    render_cells col_widths rowlen rest (col_idx + 1) out

/-- The loop `for _, row := range grid`. -/
def render_grid (col_widths : List Nat) : List (List String) → Buf → Buf
  | [], b => b
  | row :: rest, b =>
    let b := indented b
    render_grid col_widths rest { b with out := render_cells col_widths row.length row 0 b.out }

/-- The `if len(t.PK) > 0` block. -/
def render_pk (pk : List String) (b : Buf) : Buf :=
  if pk.length > 0 then
    let b := indented b
    { b with out := b.out ++ ("primary key (" ++ String.intercalate "," pk ++ ")") }
  else b

/-- The body of the loop over `t.ForeignKeys`. -/
def render_fk (fk : ForeignKey) (b : Buf) : Buf :=
  let b := indented b
  let out := b.out ++ ("foreign key (" ++ String.intercalate ", " fk.ChildKey ++ ")")
  let out := out ++ (" references " ++ fk.ParentTable)
  let out := if fk.ParentKey.length > 0 then
      out ++ ("(" ++ String.intercalate ", " fk.ParentKey ++ ")") else out
  let out := if fk.OnDelete ≠ 0 then
      out ++ (" on delete " ++ ForeignKeyAction.String fk.OnDelete) else out
  let out := if fk.OnUpdate ≠ 0 then
      out ++ (" on update " ++ ForeignKeyAction.String fk.OnUpdate) else out
  { b with out := out }

/-- The loop over `t.ForeignKeys`. -/
def render_fks : List ForeignKey → Buf → Buf
  | [], b => b
  | fk :: rest, b => render_fks rest (render_fk fk b)

/-- The table-options block after the closing parenthesis. -/
def render_options (t : Table) (out : String) : String :=
  let out := out ++ "\n)"
  let options : List String := []
  let options := if t.WithoutRowID then options ++ ["without rowid"] else options
  let options := if t.Strict then options ++ ["strict"] else options
  let out := if options.length > 0 then out ++ (" " ++ String.intercalate ", " options) else out
  out ++ ";\n"

/-- Method `Table.CreateIndexStatement`; `Sprintf` with `%s` verbs is concatenation. -/
def Table.CreateIndexStatement (t : Table) (idx : Index) : String :=
  let n := idx.Name
  let n := if n.length = 0 then t.Name ++ "_" ++ String.intercalate "_" idx.Columns ++ "_index" else n
  let u := if idx.Unique then "unique " else ""
  "create " ++ u ++ "index " ++ n ++ " on " ++ t.Name ++ "(" ++ String.intercalate "," idx.Columns ++ ");"

/-- The loop over `t.Indices`. -/
def render_indices (t : Table) : List Index → String → String
  | [], out => out
  | idx :: rest, out => render_indices t rest ((out ++ t.CreateIndexStatement idx).push '\n')

/-- Method `Table.CreateStatements`: the text handed to `w.Write`. -/
def Table.CreateStatements (t : Table) (flags : List Int) : String :=
  let temporary := temporary_loop flags ""
  let out := "" ++ ("create " ++ temporary ++ "table " ++ t.Name ++ " (")
  let b : Buf := { out := out, first := true }
  let (grid, col_widths) := build_grid t.Columns ([], [])
  let b := render_grid col_widths grid b
  let b := render_pk t.PK b
  let b := render_fks t.ForeignKeys b
  let out := render_options t b.out
  render_indices t t.Indices out

/-- The table of `ExampleTable_CreateStatements` in `declare_test.go`. -/
def exampleTable : Table :=
  { Name := "MyTable",
    Columns := [
      { Name := "uid", Type_ := UUID, Comment := "key" },
      { Name := "name", Type_ := Text },
      { Name := "created_at", Type_ := Timestamp },
      { Name := "deleted_at", Type_ := Timestamp, Nullable := true },
      { Name := "untyped", Nullable := true },
      { Name := "age", Type_ := Int_, Nullable := true } ],
    PK := ["uid"],
    ForeignKeys := [
      { ChildKey := ["uid"], ParentTable := "other_table", ParentKey := ["uid"],
        OnDelete := Cascade, OnUpdate := Cascade } ],
    WithoutRowID := true,
    Indices := [ { Name := "idx_name", Columns := ["name"], Unique := true } ] }



/-! ## The clause sequence, stated without the buffer -/

/-- Concatenation of a list of strings. -/
def concat : List String → String
  | [] => ""
  | s :: ss => s ++ concat ss

/-- The text of a clause list when `first` has the given value: every clause
is preceded by a line break and the indent, and by a comma unless it is the
first one written. -/
def clause_seq : Bool → List String → String
  | _, [] => ""
  | first, c :: cs => (if first then "" else ",") ++ "\n    " ++ c ++ clause_seq false cs

/-- The text one iteration of the cell loop writes. -/
def cell_text (col_widths : List Nat) (rowlen col_idx : Nat) (cell : String) : String :=
  (if col_idx > 0 then "  " else "") ++ cell ++
    String.mk (List.replicate
      (if max (col_widths.getD col_idx 0) cell.length > cell.length ∧ col_idx + 1 < rowlen
        then max (col_widths.getD col_idx 0) cell.length - cell.length else 0) ' ')

/-- The rendered text of one grid row: what the cell loop writes on an empty buffer. -/
def row_text (col_widths : List Nat) (row : List String) : String :=
  render_cells col_widths row.length row 0 ""

/-- The grid rows of a table. -/
def Table.grid (t : Table) : List (List String) := (build_grid t.Columns ([], [])).1

/-- The computed column widths of a table. -/
def Table.col_widths (t : Table) : List Nat := (build_grid t.Columns ([], [])).2

/-- The foreign-key clause in the words of the specification. -/
def fk_clause (fk : ForeignKey) : String :=
  "foreign key (" ++ String.intercalate ", " fk.ChildKey ++ ") references " ++ fk.ParentTable ++
    (if fk.ParentKey = [] then "" else "(" ++ String.intercalate ", " fk.ParentKey ++ ")") ++
    (if fk.OnDelete = 0 then "" else " on delete " ++ ForeignKeyAction.String fk.OnDelete) ++
    (if fk.OnUpdate = 0 then "" else " on update " ++ ForeignKeyAction.String fk.OnUpdate)

/-- The primary-key clause, present exactly when `PK` is non-empty. -/
def pk_clauses (pk : List String) : List String :=
  if pk = [] then [] else ["primary key (" ++ String.intercalate "," pk ++ ")"]

/-- The clause list of a table statement: rendered column rows, then the
primary-key clause, then the foreign-key clauses. -/
def Table.clauses (t : Table) : List String :=
  t.grid.map (row_text t.col_widths) ++ pk_clauses t.PK ++ t.ForeignKeys.map fk_clause

/-- The table options in the words of the specification. -/
def options_text (t : Table) : String :=
  match t.WithoutRowID, t.Strict with
  | false, false => ""
  | true, false => " without rowid"
  | false, true => " strict"
  | true, true => " without rowid, strict"

/-- One line per index. -/
def index_lines (t : Table) (idxs : List Index) : String :=
  concat (idxs.map fun idx => t.CreateIndexStatement idx ++ "\n")

/-- The width table after measuring the given rows in order. -/
def measure_rows (rows : List (List String)) (cw : List Nat) : List Nat :=
  rows.foldl (fun cw row => measure_cells row cw) cw

/-- Sum of `w_j + 2` over the `n` grid columns starting at column `i`. -/
def width_sum (cw : List Nat) : Nat → Nat → Nat
  | _, 0 => 0
  | i, n + 1 => (cw.getD i 0 + 2) + width_sum cw (i + 1) n

/-! ## Column lookup (`model.go`) -/

/-- Loop of `Table.FindColumn`: linear scan with early return; the result pair
is the column pointer (`none` for `nil`) and the found flag. -/
def FindColumn_loop (columnname : String) : List Column → Option Column × Bool
  | [] => (none, false)
  | c :: rest =>
    if c.Name = columnname then (some c, true) else FindColumn_loop columnname rest

/-- Method `Table.FindColumn`. -/
def Table.FindColumn (t : Table) (columnname : String) : Option Column × Bool :=
  FindColumn_loop columnname t.Columns

/-- Loop of `Table.ColumnMapping`: the assignment `m[c.Name] = c` for every
column in order; a Go map is the finite function from its keys to their values. -/
def ColumnMapping_loop : List Column → (String → Option Column) → (String → Option Column)
  | [], m => m
  | c :: rest, m => ColumnMapping_loop rest (fun k => if k = c.Name then some c else m k)

/-- Method `Table.ColumnMapping`, starting from the empty map. -/
def Table.ColumnMapping (t : Table) : String → Option Column :=
  ColumnMapping_loop t.Columns (fun _ => none)

/-! ## The other encode paths (`model.go`) -/

/-- Method `ForeignKeyAction.MarshalYAML`. -/
def MarshalYAML (a : ForeignKeyAction) : Except CodecError String :=
  let (s, ok) := fkString a
  if ok then .ok s else .error .ErrInvalidForeignKeyAction

/-- Method `ForeignKeyAction.MarshalJSON`; the argument `json_Marshal` is the
library call `json.Marshal` on a string. -/
def MarshalJSON (json_Marshal : String → Except CodecError String) (a : ForeignKeyAction) :
    Except CodecError String :=
  let (s, ok) := fkString a
  if ok then json_Marshal s else .error .ErrInvalidForeignKeyAction

/-- A text between double quotes: the JSON encoding of a string that needs no escape. -/
def json_quoted (s : String) : String :=
  String.singleton dquote ++ s ++ String.singleton dquote

/-- A non-empty list of characters without two adjacent spaces. -/
def no_double_space : List Char → Bool
  | a :: b :: rest => !(a = ' ' && b = ' ') && no_double_space (b :: rest)
  | _ => true

/-- A non-empty text of lowercase letters and single spaces between them. -/
def lower_phrase (s : String) : Bool :=
  !s.data.isEmpty && s.data.all (fun c => c.isLower || c = ' ') && no_double_space s.data &&
    s.data.head? != some ' ' && s.data.getLast? != some ' '

/-- The untyped generated column `gen` of the example in `declare-sql_test.go`. -/
def genColumn : Column :=
  { Name := "gen",
    Generated := some
      { Expression := "name + " ++ json_quoted " " ++ " + age", Storage := Virtual } }

/-- The table of `ExampleTable_CreateStatements` in `declare-sql_test.go`: the
example table with the column `gen` appended. -/
def exampleTableGen : Table :=
  { exampleTable with Columns := exampleTable.Columns ++ [genColumn] }

/-- The text written before the clause of the `i`-th foreign key: the statement
head, the earlier clauses and the separating comma. -/
def Table.before_fk (t : Table) (flags : List Int) (i : Nat) : String :=
  "create " ++ temporary_loop flags "" ++ "table " ++ t.Name ++ " (" ++
    clause_seq true (t.grid.map (row_text t.col_widths) ++ pk_clauses t.PK ++
      (t.ForeignKeys.take i).map fk_clause) ++
    (if t.grid.map (row_text t.col_widths) ++ pk_clauses t.PK ++
      (t.ForeignKeys.take i).map fk_clause = [] then "" else ",")

/-- The text written after the clause of the `i`-th foreign key: the later
foreign-key clauses, the closing line with the options, and the index lines. -/
def Table.after_fk (t : Table) (i : Nat) : String :=
  clause_seq false ((t.ForeignKeys.drop (i + 1)).map fk_clause) ++
    "\n)" ++ options_text t ++ ";\n" ++ index_lines t t.Indices

/-! ## Buffer lemmas -/

theorem pad_loop_add_eight (out : String) (n : Nat) :
    pad_loop out (n + 8) = pad_loop (out ++ "        ") n := by
  rw [pad_loop]

theorem pad_loop_lt (out : String) (n : Nat) (h : n < 8) :
    pad_loop out n = out ++ String.mk ("        ".data.take n) := by
  interval_cases n <;> rfl

/-- The padding loop writes exactly `n` spaces after what is already written. -/
theorem pad_loop_eq (n : Nat) : ∀ out : String,
    pad_loop out n = out ++ String.mk (List.replicate n ' ') := by
  induction n using Nat.strong_induction_on with
  | _ n ih =>
    intro out
    by_cases h : n < 8
    · rw [pad_loop_lt out n h]
      interval_cases n <;> rfl
    · obtain ⟨m, rfl⟩ : ∃ m, n = m + 8 := ⟨n - 8, by omega⟩
      rw [pad_loop_add_eight, ih m (by omega)]
      apply String.ext
      simp only [String.data_append, List.append_assoc]
      show out.data ++ (List.replicate 8 ' ' ++ List.replicate m ' ') = _
      rw [← List.replicate_add, Nat.add_comm]


theorem concat_append (xs ys : List String) : concat (xs ++ ys) = concat xs ++ concat ys := by
  induction xs with
  | nil => simp [concat]
  | cons x xs ih => simp [concat, ih, String.append_assoc]

theorem clause_seq_append (first : Bool) (xs ys : List String) :
    clause_seq first (xs ++ ys) = clause_seq first xs ++ clause_seq (first && xs.isEmpty) ys := by
  induction xs generalizing first with
  | nil => simp [clause_seq]
  | cons x xs ih => simp [clause_seq, ih, String.append_assoc]

theorem clause_seq_false (cs : List String) :
    clause_seq false cs = concat (cs.map fun c => ",\n    " ++ c) := by
  induction cs with
  | nil => rfl
  | cons c cs ih => simp [clause_seq, concat, ih, String.append_assoc]

theorem indented_eq (b : Buf) :
    indented b = { out := b.out ++ ((if b.first then "" else ",") ++ "\n    "), first := false } := by
  cases b with
  | mk out first =>
    cases first
    · simp only [indented]
      congr 1
      apply String.ext
      simp [String.data_append]
    · simp [indented]

theorem render_cells_step (cw : List Nat) (rowlen : Nat) (cell : String) (rest : List String)
    (i : Nat) (out : String) :
    render_cells cw rowlen (cell :: rest) i out
      = render_cells cw rowlen rest (i + 1) (out ++ cell_text cw rowlen i cell) := by
  have hcol : (if i < cw.length then cw.getD i 0 else 0) = cw.getD i 0 := by
    split
    · rfl
    · rw [List.getD_eq_default]; omega
  have hmax : (if cw.getD i 0 < measure_cell cell then measure_cell cell else cw.getD i 0)
      = max (cw.getD i 0) cell.length := by
    unfold measure_cell
    split <;> omega
  rw [render_cells]
  simp only [hcol, hmax]
  congr 1
  unfold cell_text measure_cell
  by_cases hp : max (cw.getD i 0) cell.length > cell.length ∧ i + 1 < rowlen
  · rw [if_pos hp, if_pos hp, pad_loop_eq]
    by_cases hi : i > 0 <;> simp [hi, String.append_assoc]
  · rw [if_neg hp, if_neg hp]
    apply String.ext
    by_cases hi : i > 0 <;> simp [hi, String.data_append]

theorem render_cells_eq (cw : List Nat) (rowlen : Nat) (row : List String) :
    ∀ (i : Nat) (out : String),
      render_cells cw rowlen row i out
        = out ++ concat (row.mapIdx fun j cell => cell_text cw rowlen (i + j) cell) := by
  induction row with
  | nil => intro i out; simp [render_cells, concat]
  | cons c rest ih =>
    intro i out
    rw [render_cells_step, ih, List.mapIdx_cons]
    simp only [concat, String.append_assoc, Nat.add_zero]
    have hf : (fun j cell => cell_text cw rowlen (i + 1 + j) cell)
        = (fun j cell => cell_text cw rowlen (i + (j + 1)) cell) := by
      funext j cell
      rw [Nat.add_assoc, Nat.add_comm 1 j]
    rw [hf]

theorem render_cells_append (cw : List Nat) (rowlen : Nat) (row : List String) (i : Nat)
    (out : String) :
    render_cells cw rowlen row i out = out ++ render_cells cw rowlen row i "" := by
  rw [render_cells_eq, render_cells_eq cw rowlen row i ""]
  simp

theorem render_grid_eq (cw : List Nat) (grid : List (List String)) :
    ∀ b : Buf, render_grid cw grid b
      = { out := b.out ++ clause_seq b.first (grid.map (row_text cw)),
          first := b.first && grid.isEmpty } := by
  induction grid with
  | nil => intro b; simp [render_grid, clause_seq]
  | cons row rest ih =>
    intro b
    rw [render_grid, ih, indented_eq]
    simp only [List.map_cons, clause_seq, row_text, List.isEmpty_cons, Bool.and_false]
    rw [render_cells_append]
    simp [String.append_assoc]

theorem render_pk_eq (pk : List String) (b : Buf) :
    render_pk pk b
      = { out := b.out ++ clause_seq b.first (pk_clauses pk),
          first := b.first && (pk_clauses pk).isEmpty } := by
  unfold render_pk pk_clauses
  cases pk with
  | nil => simp [clause_seq]
  | cons p ps => simp [indented_eq, clause_seq, String.append_assoc]

theorem render_fk_eq (fk : ForeignKey) (b : Buf) :
    render_fk fk b
      = { out := b.out ++ ((if b.first then "" else ",") ++ "\n    " ++ fk_clause fk),
          first := false } := by
  unfold render_fk fk_clause
  rw [indented_eq]
  simp only [Buf.mk.injEq, and_true]
  have hpk : (fk.ParentKey.length > 0) = ¬ (fk.ParentKey = []) := by
    cases fk.ParentKey <;> simp
  have hr : ∀ x : String, ")" ++ (" references " ++ x) = ") references " ++ x := by
    intro x
    rw [← String.append_assoc]
    rfl
  simp only [hpk, ne_eq, ite_not]
  by_cases h1 : fk.ParentKey = [] <;> by_cases h2 : fk.OnDelete = 0 <;>
    by_cases h3 : fk.OnUpdate = 0 <;> simp [h1, h2, h3, String.append_assoc, hr]

theorem render_fks_eq (fks : List ForeignKey) :
    ∀ b : Buf, render_fks fks b
      = { out := b.out ++ clause_seq b.first (fks.map fk_clause),
          first := b.first && fks.isEmpty } := by
  induction fks with
  | nil => intro b; simp [render_fks, clause_seq]
  | cons fk rest ih =>
    intro b
    rw [render_fks, ih, render_fk_eq]
    simp [clause_seq, String.append_assoc]

theorem render_options_eq (t : Table) (out : String) :
    render_options t out = out ++ ("\n)" ++ (options_text t ++ ";\n")) := by
  unfold render_options options_text
  cases t.WithoutRowID <;> cases t.Strict <;> simp [String.append_assoc, String.intercalate] <;> rfl

theorem render_indices_eq (t : Table) (idxs : List Index) :
    ∀ out : String, render_indices t idxs out = out ++ index_lines t idxs := by
  induction idxs with
  | nil => intro out; simp [render_indices, index_lines, concat]
  | cons idx rest ih =>
    intro out
    rw [render_indices, ih]
    apply String.ext
    simp [index_lines, concat, String.data_append]

/-- The whole output of `CreateStatements` as one concatenation. -/
theorem CreateStatements_eq (t : Table) (flags : List Int) :
    t.CreateStatements flags
      = "create " ++ (temporary_loop flags "" ++ ("table " ++ (t.Name ++ (" (" ++
          (clause_seq true t.clauses ++ ("\n)" ++ (options_text t ++ (";\n" ++
            index_lines t t.Indices)))))))) := by
  unfold Table.CreateStatements Table.clauses Table.grid Table.col_widths
  simp only [render_indices_eq, render_options_eq, render_fks_eq, render_pk_eq, render_grid_eq,
    clause_seq_append, String.append_assoc, String.empty_append, Bool.true_and]
  cases (build_grid t.Columns ([], [])).1 <;> cases pk_clauses t.PK <;> simp


/-! ## Width table lemmas -/

theorem measure_cells_step_length (cw : List Nat) (i : Nat) (cell : String)
    (hi : i ≤ cw.length) :
    (measure_cells_step cw i cell).length = max cw.length (i + 1) := by
  unfold measure_cells_step
  by_cases h : i < cw.length
  · simp only [h, if_true]
    split
    · rw [List.length_set]; omega
    · omega
  · simp only [h, if_false, List.length_append, List.length_singleton]
    omega

theorem measure_cells_step_getD (cw : List Nat) (i : Nat) (cell : String)
    (hi : i ≤ cw.length) (j : Nat) :
    (measure_cells_step cw i cell).getD j 0
      = if j = i then max (cw.getD i 0) cell.length else cw.getD j 0 := by
  unfold measure_cells_step measure_cell
  by_cases h : i < cw.length
  · rw [if_pos h]
    by_cases hw : cell.length > cw.getD i 0
    · rw [if_pos hw]
      by_cases hji : j = i
      · subst hji
        rw [if_pos rfl, List.getD_eq_getElem?_getD, List.getElem?_set, if_pos rfl, if_pos h]
        simp only [Option.getD_some]
        omega
      · have hij : ¬ i = j := fun e => hji e.symm
        rw [if_neg hji, List.getD_eq_getElem?_getD, List.getElem?_set, if_neg hij,
          List.getD_eq_getElem?_getD]
    · rw [if_neg hw]
      by_cases hji : j = i
      · subst hji
        rw [if_pos rfl]
        omega
      · rw [if_neg hji]
  · have hlen : i = cw.length := by omega
    rw [if_neg h]
    by_cases hji : j = i
    · rw [if_pos hji, hji, hlen, List.getD_append_right _ _ _ _ (Nat.le_refl _),
        List.getD_eq_default cw 0 (Nat.le_refl _), Nat.sub_self]
      simp
    · rw [if_neg hji]
      by_cases hj : j < cw.length
      · rw [List.getD_append _ _ _ _ hj]
      · have h1 : ([cell.length] : List Nat).length ≤ j - cw.length := by
          simp only [List.length_singleton]; omega
        rw [List.getD_append_right _ _ _ _ (by omega), List.getD_eq_default _ _ h1,
          List.getD_eq_default _ _ (by omega)]

theorem measure_cells_loop_spec (row : List String) :
    ∀ (i : Nat) (cw : List Nat), i ≤ cw.length →
      (measure_cells_loop row i cw).length = max cw.length (i + row.length) ∧
      ∀ j, (measure_cells_loop row i cw).getD j 0
        = if i ≤ j ∧ j < i + row.length then max (cw.getD j 0) ((row.getD (j - i) "").length)
          else cw.getD j 0 := by
  induction row with
  | nil =>
    intro i cw hi
    refine ⟨by simp [measure_cells_loop]; omega, ?_⟩
    intro j
    have : ¬ (i ≤ j ∧ j < i + ([] : List String).length) := by simp
    rw [if_neg this]
    rfl
  | cons c rest ih =>
    intro i cw hi
    have hlen := measure_cells_step_length cw i c hi
    obtain ⟨h1, h2⟩ := ih (i + 1) (measure_cells_step cw i c) (by omega)
    refine ⟨?_, ?_⟩
    · rw [measure_cells_loop, h1, hlen, List.length_cons]; omega
    · intro j
      rw [measure_cells_loop, h2 j, measure_cells_step_getD cw i c hi j, List.length_cons]
      by_cases hji : j = i
      · subst hji
        have : ¬ (j + 1 ≤ j ∧ j < j + 1 + rest.length) := by omega
        simp [this]
      · by_cases hr : i + 1 ≤ j ∧ j < i + 1 + rest.length
        · have hr2 : i ≤ j ∧ j < i + (rest.length + 1) := by omega
          obtain ⟨m, hm⟩ : ∃ m, j - i = m + 1 := ⟨j - i - 1, by omega⟩
          have hm2 : j - (i + 1) = m := by omega
          simp only [hr, hr2, hji, and_self, if_true, if_false, hm, hm2, List.getD_cons_succ]
        · have hr2 : ¬ (i ≤ j ∧ j < i + (rest.length + 1)) := by omega
          simp only [hr, hr2, hji, if_false]

theorem measure_cells_length (row : List String) (cw : List Nat) :
    (measure_cells row cw).length = max cw.length row.length := by
  have := (measure_cells_loop_spec row 0 cw (Nat.zero_le _)).1
  simpa [measure_cells] using this

theorem measure_cells_getD (row : List String) (cw : List Nat) (j : Nat) :
    (measure_cells row cw).getD j 0
      = if j < row.length then max (cw.getD j 0) ((row.getD j "").length) else cw.getD j 0 := by
  have := (measure_cells_loop_spec row 0 cw (Nat.zero_le _)).2 j
  simpa [measure_cells] using this


theorem build_grid_eq (cols : List Column) :
    ∀ (grid : List (List String)) (cw : List Nat),
      build_grid cols (grid, cw)
        = (grid ++ cols.map column_row, measure_rows (cols.map column_row) cw) := by
  induction cols with
  | nil => intro grid cw; simp [build_grid, measure_rows]
  | cons f rest ih =>
    intro grid cw
    rw [build_grid, ih]
    simp [measure_rows]

theorem Table.grid_eq (t : Table) : t.grid = t.Columns.map column_row := by
  simp [Table.grid, build_grid_eq]

theorem Table.col_widths_eq (t : Table) :
    t.col_widths = measure_rows (t.Columns.map column_row) [] := by
  simp [Table.col_widths, build_grid_eq]

theorem measure_rows_mono (rows : List (List String)) :
    ∀ (cw : List Nat) (j : Nat), cw.getD j 0 ≤ (measure_rows rows cw).getD j 0 := by
  induction rows with
  | nil => intro cw j; simp [measure_rows]
  | cons row rest ih =>
    intro cw j
    have h1 := ih (measure_cells row cw) j
    have h2 := measure_cells_getD row cw j
    simp only [measure_rows, List.foldl_cons] at h1 ⊢
    refine Nat.le_trans ?_ h1
    rw [h2]
    split <;> omega

/-- Every cell of a measured row is at most as wide as its column. -/
theorem measure_rows_dominates (rows : List (List String)) :
    ∀ (cw : List Nat) (row : List String), row ∈ rows → ∀ k, k < row.length →
      (row.getD k "").length ≤ (measure_rows rows cw).getD k 0 := by
  induction rows with
  | nil => intro cw row h; simp at h
  | cons r rest ih =>
    intro cw row hmem k hk
    rcases List.mem_cons.mp hmem with h | h
    · subst h
      have h1 := measure_rows_mono rest (measure_cells row cw) k
      have h2 := measure_cells_getD row cw k
      simp only [measure_rows, List.foldl_cons] at h1 ⊢
      refine Nat.le_trans ?_ h1
      rw [h2, if_pos hk]
      omega
    · have := ih (measure_cells r cw) row h k hk
      simpa [measure_rows] using this


/-! ## Cell offsets -/

theorem width_sum_eq_range (cw : List Nat) (n : Nat) :
    ∀ i, width_sum cw i n = ((List.range n).map fun j => cw.getD (i + j) 0 + 2).sum := by
  induction n with
  | zero => intro i; simp [width_sum]
  | succ n ih =>
    intro i
    rw [width_sum, ih, List.range_succ_eq_map, List.map_cons, List.sum_cons, List.map_map]
    congr 2
    apply List.map_congr_left
    intro j _
    simp only [Function.comp, Nat.succ_eq_add_one]
    rw [Nat.add_assoc, Nat.add_comm 1 j]

theorem cell_text_length (cw : List Nat) (rowlen i : Nat) (c : String)
    (hdom : c.length ≤ cw.getD i 0) (hlast : i + 1 < rowlen) :
    (cell_text cw rowlen i c).length = (if i > 0 then 2 else 0) + cw.getD i 0 := by
  unfold cell_text
  simp only [String.length_append, String.length_mk, List.length_replicate]
  have h2 : "  ".length = 2 := rfl
  have h0 : "".length = 0 := rfl
  by_cases hi : i > 0 <;> by_cases hm : max (cw.getD i 0) c.length > c.length <;>
    simp only [hi, hm, hlast, h2, h0, and_self, and_true, true_and, false_and, if_true, if_false] <;>
    omega

theorem segment_length (cw : List Nat) (rowlen : Nat) :
    ∀ (pre : List String) (i : Nat),
      (∀ j, j < pre.length → (pre.getD j "").length ≤ cw.getD (i + j) 0) →
      i + pre.length < rowlen →
      (concat (pre.mapIdx fun j c => cell_text cw rowlen (i + j) c)).length
          + (if i + pre.length > 0 then 2 else 0)
        = (if i > 0 then 2 else 0) + width_sum cw i pre.length := by
  intro pre
  induction pre with
  | nil => intro i _ _; simp [concat, width_sum]
  | cons c rest ih =>
    intro i hdom hlen
    have hf : (fun j cell => cell_text cw rowlen (i + (j + 1)) cell)
        = (fun j cell => cell_text cw rowlen (i + 1 + j) cell) := by
      funext j cell
      rw [Nat.add_assoc, Nat.add_comm 1 j]
    have hc : c.length ≤ cw.getD i 0 := by
      have := hdom 0 (by simp)
      simpa using this
    have hrest : ∀ j, j < rest.length → (rest.getD j "").length ≤ cw.getD (i + 1 + j) 0 := by
      intro j hj
      have := hdom (j + 1) (by simp; omega)
      rw [List.getD_cons_succ] at this
      rw [Nat.add_assoc, Nat.add_comm 1 j]
      exact this
    simp only [List.length_cons] at hlen
    have ih1 := ih (i + 1) hrest (by omega)
    rw [List.mapIdx_cons, concat, String.length_append, hf, Nat.add_zero,
      cell_text_length cw rowlen i c hc (by omega), List.length_cons, width_sum]
    have e1 : i + (rest.length + 1) = i + 1 + rest.length := by omega
    rw [e1]
    have e2 : (if i + 1 > 0 then 2 else 0) = 2 := by simp
    rw [e2] at ih1
    omega

theorem row_text_eq (cw : List Nat) (row : List String) :
    row_text cw row = concat (row.mapIdx fun j cell => cell_text cw row.length j cell) := by
  unfold row_text
  rw [render_cells_eq]
  simp

/-- In a row whose cells fit their columns, the cell after `pre` starts at
offset `4 + Σ (w_j + 2)` of the indented line. -/
theorem cell_at_offset (cw : List Nat) (pre post : List String) (c : String)
    (hdom : ∀ j, j < (pre ++ c :: post).length →
      ((pre ++ c :: post).getD j "").length ≤ cw.getD j 0) :
    ∃ a b : List Char,
      ("    " ++ row_text cw (pre ++ c :: post)).data = a ++ c.data ++ b ∧
      a.length = 4 + width_sum cw 0 pre.length := by
  have hpre : ∀ j, j < pre.length → (pre.getD j "").length ≤ cw.getD (0 + j) 0 := by
    intro j hj
    have := hdom j (by simp; omega)
    rw [List.getD_append _ _ _ _ hj] at this
    simpa using this
  have hseg := segment_length cw (pre ++ c :: post).length pre 0 hpre (by simp)
  simp only [Nat.zero_add, gt_iff_lt, Nat.lt_irrefl, if_false] at hseg
  refine ⟨("    " ++ concat (pre.mapIdx fun j cell => cell_text cw (pre ++ c :: post).length j cell)
      ++ (if pre.length > 0 then "  " else "")).data, ?_, ?_, ?_⟩
  · exact (String.mk (List.replicate
      (if max (cw.getD pre.length 0) c.length > c.length ∧ pre.length + 1 < (pre ++ c :: post).length
        then max (cw.getD pre.length 0) c.length - c.length else 0) ' ') ++
      concat (post.mapIdx fun j cell =>
        cell_text cw (pre ++ c :: post).length (j + 1 + pre.length) cell)).data
  · rw [row_text_eq, List.mapIdx_append, concat_append, List.mapIdx_cons, concat]
    simp only [cell_text, String.data_append, List.append_assoc, Nat.zero_add]
  · rw [String.data_append, List.length_append, String.data_append, List.length_append]
    have h4 : "    ".data.length = 4 := rfl
    have hs : (if pre.length > 0 then "  " else "").data.length
        = if pre.length > 0 then 2 else 0 := by
      split <;> rfl
    rw [h4, hs]
    have hseg2 : (concat (pre.mapIdx fun j cell =>
        cell_text cw (pre ++ c :: post).length j cell)).data.length
          + (if pre.length > 0 then 2 else 0) = width_sum cw 0 pre.length := hseg
    omega


theorem list_split_at {α : Type} (l : List α) (k : Nat) (hk : k < l.length) :
    l = l.take k ++ l[k] :: l.drop (k + 1) := by
  rw [← List.drop_eq_getElem_cons hk, List.take_append_drop]

theorem cell_at_index (cw : List Nat) (row : List String)
    (hdom : ∀ j, j < row.length → (row.getD j "").length ≤ cw.getD j 0)
    (k : Nat) (hk : k < row.length) :
    ∃ a b : List Char,
      ("    " ++ row_text cw row).data = a ++ row[k].data ++ b ∧
      a.length = 4 + ((List.range k).map fun j => cw.getD j 0 + 2).sum := by
  have hsplit := list_split_at row k hk
  have hdom2 : ∀ j, j < (row.take k ++ row[k] :: row.drop (k + 1)).length →
      ((row.take k ++ row[k] :: row.drop (k + 1)).getD j "").length ≤ cw.getD j 0 := by
    rw [← hsplit]
    exact hdom
  obtain ⟨a, b, h1, h2⟩ := cell_at_offset cw (row.take k) (row.drop (k + 1)) row[k] hdom2
  rw [← hsplit] at h1
  refine ⟨a, b, h1, ?_⟩
  rw [h2, width_sum_eq_range, List.length_take, Nat.min_eq_left (Nat.le_of_lt hk)]
  simp

theorem clause_seq_split (A B : List String) (x : String) :
    clause_seq true (A ++ x :: B)
      = clause_seq true A ++
          ((if A = [] then "" else ",") ++ ("\n" ++ (("    " ++ x) ++ clause_seq false B))) := by
  rw [clause_seq_append, clause_seq]
  cases A <;> (apply String.ext; simp [String.data_append])

theorem grid_rows_dominated (t : Table) (i : Nat) (hi : i < t.grid.length) :
    ∀ j, j < (t.grid[i]).length → ((t.grid[i]).getD j "").length ≤ t.col_widths.getD j 0 := by
  intro j hj
  have hmem : t.grid[i] ∈ t.Columns.map column_row := by
    rw [← Table.grid_eq]
    exact List.getElem_mem hi
  rw [Table.col_widths_eq]
  exact measure_rows_dominates _ [] _ hmem j hj


/-! ## Claims -/

set_option maxRecDepth 100000

/-- C1: for the table `MyTable` of the example (six columns, primary key `uid`,
one cascading foreign key, `WithoutRowID`, one unique index `idx_name`),
`CreateStatements` with no flags writes exactly the expected text of the example. -/
theorem C1_example_fixture :
    exampleTable.CreateStatements [] =
      "create table MyTable (\n    uid         uuid       not null,\n    name        text       not null,\n    created_at  timestamp  not null,\n    deleted_at  timestamp,\n    untyped,\n    age         int,\n    primary key (uid),\n    foreign key (uid) references other_table(uid) on delete cascade on update cascade\n) without rowid;\ncreate unique index idx_name on MyTable(name);\n" := by
  decide

/-- C2: in the text written by `CreateStatements`, the `i`-th column row is
written after a line break (preceded by a comma unless it is the first clause)
as a line that starts with four spaces, and every cell `k` of the row starts at
offset `4 + Σ_{j<k} (w_j + 2)` of that line, `w_j` being the computed width of
grid column `j`. -/
theorem C2_column_alignment (t : Table) (flags : List Int) (i : Nat) (hi : i < t.grid.length) :
    t.CreateStatements flags
        = ("create " ++ temporary_loop flags "" ++ "table " ++ t.Name ++ " (" ++
            clause_seq true ((t.grid.take i).map (row_text t.col_widths)) ++
            (if i = 0 then "" else ",")) ++
          "\n" ++ ("    " ++ row_text t.col_widths t.grid[i]) ++
          (clause_seq false ((t.grid.drop (i + 1)).map (row_text t.col_widths) ++
              pk_clauses t.PK ++ t.ForeignKeys.map fk_clause) ++
            "\n)" ++ options_text t ++ ";\n" ++ index_lines t t.Indices) ∧
    ("    " ++ row_text t.col_widths t.grid[i]).data.take 4 = [' ', ' ', ' ', ' '] ∧
    ∀ (k : Nat) (hk : k < (t.grid[i]).length),
      ∃ a b : List Char,
        ("    " ++ row_text t.col_widths t.grid[i]).data = a ++ ((t.grid[i])[k]).data ++ b ∧
        a.length = 4 + ((List.range k).map fun j => t.col_widths.getD j 0 + 2).sum := by
  refine ⟨?_, rfl, ?_⟩
  · rw [CreateStatements_eq]
    have hsplit := list_split_at t.grid i hi
    have hcl : t.clauses
        = (t.grid.take i).map (row_text t.col_widths) ++
            row_text t.col_widths t.grid[i] ::
              ((t.grid.drop (i + 1)).map (row_text t.col_widths) ++
                pk_clauses t.PK ++ t.ForeignKeys.map fk_clause) := by
      have hm := congrArg (List.map (row_text t.col_widths)) hsplit
      rw [List.map_append, List.map_cons] at hm
      unfold Table.clauses
      rw [hm]
      simp only [List.append_assoc, List.cons_append]
    have hemp : ((t.grid.take i).map (row_text t.col_widths) = []) ↔ i = 0 := by
      rw [List.map_eq_nil_iff, List.take_eq_nil_iff]
      constructor
      · rintro (h | h)
        · exact h
        · rw [h] at hi; simp at hi
      · intro h; exact Or.inl h
    rw [hcl, clause_seq_split]
    simp only [hemp, String.append_assoc]
  · intro k hk
    exact cell_at_index t.col_widths t.grid[i] (grid_rows_dominated t i hi) k hk

/-- Witness for C2: the third cell of the first row of the example table. -/
theorem C2_column_alignment_witness :
    ∃ a b : List Char,
      ("    " ++ row_text exampleTable.col_widths ["uid", "uuid", "not null"]).data
          = a ++ "not null".data ++ b ∧
      a.length = 27 := by
  obtain ⟨a, b, h1, h2⟩ :=
    (C2_column_alignment exampleTable [] 0 (by decide)).2.2 2 (by decide)
  exact ⟨a, b, h1, h2⟩

/-- C3 (as the code behaves): with the `TemporaryTable` flag the text begins with
`create temporarytable <name> (`: the keywords `temporary` and `table` are not
separated, so the text does not begin with `create temporary table `; with no
flag it begins with `create table <name> (`. -/
theorem C3_temporary_keyword_not_separated (t : Table) :
    (∃ rest, t.CreateStatements [TemporaryTable]
        = "create temporarytable " ++ t.Name ++ " (" ++ rest) ∧
    (¬ ∃ rest, t.CreateStatements [TemporaryTable] = "create temporary table " ++ rest) ∧
    (∃ rest, t.CreateStatements [] = "create table " ++ t.Name ++ " (" ++ rest) := by
  refine ⟨⟨clause_seq true t.clauses ++ ("\n)" ++ (options_text t ++ (";\n" ++
      index_lines t t.Indices))), ?_⟩, ?_, ⟨clause_seq true t.clauses ++ ("\n)" ++
      (options_text t ++ (";\n" ++ index_lines t t.Indices))), ?_⟩⟩
  · rw [CreateStatements_eq]
    apply String.ext
    simp only [temporary_loop, TemporaryTable, if_true, String.data_append, List.append_assoc]
    rfl
  · rintro ⟨rest, h⟩
    rw [CreateStatements_eq] at h
    have h2 := congrArg (fun s : String => s.data.take 17) h
    simp [temporary_loop, TemporaryTable, String.data_append] at h2
  · rw [CreateStatements_eq]
    apply String.ext
    simp only [temporary_loop, String.data_append, List.append_assoc]
    rfl


/-- C4: for each of the six constants (unset, SetNull, SetDefault, Cascade,
Restrict, NoAction) `MarshalText` succeeds, and `UnmarshalText` of the produced
text into any receiver succeeds and stores the constant; equivalently
`fkValue (fkString x) = (x, true)`. -/
theorem C4_enum_round_trip (x : ForeignKeyAction)
    (hx : x ∈ [0, SetNull, SetDefault, Cascade, Restrict, NoAction]) (r : ForeignKeyAction) :
    ∃ s : String, MarshalText x = Except.ok s ∧ UnmarshalText r s = (none, x) ∧
      (fkString x).2 = true ∧ fkValue (fkString x).1 = (x, true) := by
  simp only [List.mem_cons, List.mem_singleton, List.not_mem_nil, or_false] at hx
  rcases hx with h | h | h | h | h | h <;> subst h
  · exact ⟨"", rfl, rfl, rfl, rfl⟩
  · exact ⟨"set null", rfl, rfl, rfl, rfl⟩
  · exact ⟨"set default", rfl, rfl, rfl, rfl⟩
  · exact ⟨"cascade", rfl, rfl, rfl, rfl⟩
  · exact ⟨"restrict", rfl, rfl, rfl, rfl⟩
  · exact ⟨"no action", rfl, rfl, rfl, rfl⟩

/-- Witness for C4: `Cascade` decoded into a receiver holding `Restrict`. -/
theorem C4_enum_round_trip_witness :
    ∃ s : String, MarshalText Cascade = Except.ok s ∧ UnmarshalText Restrict s = (none, Cascade) ∧
      (fkString Cascade).2 = true ∧ fkValue (fkString Cascade).1 = (Cascade, true) :=
  C4_enum_round_trip Cascade (by decide) Restrict

theorem fkValue_reject (s : String)
    (hs : s ∉ ["", "set null", "set default", "cascade", "restrict", "no action"]) :
    fkValue s = (0, false) := by
  simp only [List.mem_cons, List.mem_singleton, List.not_mem_nil, or_false, not_or] at hs
  obtain ⟨h0, h1, h2, h3, h4, h5⟩ := hs
  simp only [fkValue, h0, h1, h2, h3, h4, h5, if_false]

/-- C5: for every string that is not one of the six canonical phrases,
`UnmarshalText` returns `ErrInvalidForeignKeyAction` and leaves the receiver
unchanged, and so does `UnmarshalJSON` when the JSON input is a string with that
content. -/
theorem C5_decode_rejection (s : String)
    (hs : s ∉ ["", "set null", "set default", "cascade", "restrict", "no action"])
    (a : ForeignKeyAction) :
    UnmarshalText a s = (some CodecError.ErrInvalidForeignKeyAction, a) ∧
    UnmarshalJSON a (some s) = (some CodecError.ErrInvalidForeignKeyAction, a) := by
  simp [UnmarshalText, UnmarshalJSON, fkValue_reject s hs]

/-- Witness for C5: the upper-case spelling `CASCADE` into a receiver holding `SetNull`. -/
theorem C5_decode_rejection_witness :
    UnmarshalText SetNull "CASCADE" = (some CodecError.ErrInvalidForeignKeyAction, SetNull) ∧
    UnmarshalJSON SetNull (some "CASCADE")
      = (some CodecError.ErrInvalidForeignKeyAction, SetNull) :=
  C5_decode_rejection "CASCADE" (by decide) SetNull

theorem HasTable_loop_iff (n : String) (ts : List Table) :
    HasTable_loop n ts = true ↔ ∃ t ∈ ts, t.Name = n := by
  induction ts with
  | nil => simp [HasTable_loop]
  | cons t rest ih =>
    rw [HasTable_loop]
    by_cases h : t.Name = n
    · simp [h]
    · simp [h, ih]

theorem CheckTables_loop_eq (db : Database) (names : List String) :
    ∀ missing : List String,
      CheckTables_loop db names missing
        = missing ++ names.filter (fun n => !db.HasTable n) := by
  induction names with
  | nil => intro missing; simp [CheckTables_loop]
  | cons n rest ih =>
    intro missing
    rw [CheckTables_loop]
    cases h : db.HasTable n <;> simp [h, ih, List.filter_cons]

/-- C6: `CheckTables` returns the sub-sequence of the requested names, in
argument order and with repetitions, for which `HasTable` is false, where
`HasTable n` holds exactly when some table of the database is named `n`; it is
empty for no names and when every name is present, and for tables `t1`, `t2` the
call `CheckTables("t1", "t3")` returns `["t3"]`. -/
theorem C6_check_tables (db : Database) (names : List String) :
    db.CheckTables names = names.filter (fun n => !db.HasTable n) ∧
    (∀ n, db.HasTable n = true ↔ ∃ t ∈ db.Tables, t.Name = n) ∧
    db.CheckTables [] = [] ∧
    ((∀ n ∈ names, db.HasTable n = true) → db.CheckTables names = []) ∧
    (Database.mk [{ Name := "t1" }, { Name := "t2" }]).CheckTables ["t1", "t3"] = ["t3"] := by
  have hall : ∀ ns, db.CheckTables ns = ns.filter (fun n => !db.HasTable n) := by
    intro ns
    simp [Database.CheckTables, CheckTables_loop_eq]
  refine ⟨hall names, ?_, ?_, ?_, by decide⟩
  · intro n
    exact HasTable_loop_iff n db.Tables
  · rw [hall]; rfl
  · intro h
    rw [hall, List.filter_eq_nil_iff]
    intro n hn
    simp [h n hn]

/-- Witness for C6: both requested names are present, so nothing is missing. -/
theorem C6_check_tables_witness :
    (Database.mk [{ Name := "t1" }, { Name := "t2" }]).CheckTables ["t2", "t1"] = [] :=
  (C6_check_tables (Database.mk [{ Name := "t1" }, { Name := "t2" }]) ["t2", "t1"]).2.2.2.1
    (by decide)

theorem string_length_eq_zero (s : String) : s.length = 0 ↔ s = "" := by
  constructor
  · intro h
    apply String.ext
    exact List.length_eq_zero.mp h
  · intro h
    rw [h]
    rfl

/-- C7: `CreateIndexStatement` is `create [unique ]index <n> on <table>(<columns
joined by ",">);` where `n` is the index name when non-empty and otherwise
`<table>_<columns joined by "_">_index`; an unnamed index on `[a, b]` of table
`T` renders as `create index T_a_b_index on T(a,b);`. -/
theorem C7_index_statement (t : Table) (idx : Index) :
    t.CreateIndexStatement idx
        = "create " ++ (if idx.Unique then "unique " else "") ++ "index " ++
            (if idx.Name ≠ "" then idx.Name
              else t.Name ++ "_" ++ String.intercalate "_" idx.Columns ++ "_index") ++
            " on " ++ t.Name ++ "(" ++ String.intercalate "," idx.Columns ++ ");" ∧
    ({ Name := "T" } : Table).CreateIndexStatement { Columns := ["a", "b"] }
        = "create index T_a_b_index on T(a,b);" := by
  refine ⟨?_, by decide⟩
  unfold Table.CreateIndexStatement
  have hc : (idx.Name.length = 0) = (idx.Name = "") := propext (string_length_eq_zero _)
  simp only [hc, ne_eq, ite_not]


theorem clause_seq_true_eq (cs : List String) :
    clause_seq true cs
      = match cs with
        | [] => ""
        | c :: rest => "\n    " ++ c ++ concat (rest.map fun d => ",\n    " ++ d) := by
  cases cs with
  | nil => rfl
  | cons c rest => simp [clause_seq, clause_seq_false, String.append_assoc]

theorem Table.clauses_eq (t : Table) :
    t.clauses
      = t.Columns.map (fun f => row_text t.col_widths (column_row f)) ++
          (if t.PK = [] then []
            else ["primary key (" ++ String.intercalate "," t.PK ++ ")"]) ++
          t.ForeignKeys.map fk_clause := by
  simp [Table.clauses, Table.grid_eq, pk_clauses, Function.comp_def]

/-- C8: the text between the opening parenthesis and the closing line of the
table statement is, for the clause list made of the rendered column rows, the
primary-key clause when `PK` is non-empty and the foreign-key clauses, the first
clause after a line break and indent and every later clause after a comma, line
break and indent; with no columns the primary-key clause is the first clause
and gets no comma. -/
theorem C8_comma_prefixed_clauses (t : Table) (flags : List Int) :
    t.CreateStatements flags
        = ("create " ++ temporary_loop flags "" ++ "table " ++ t.Name ++ " (") ++
          (match t.Columns.map (fun f => row_text t.col_widths (column_row f)) ++
                (if t.PK = [] then []
                  else ["primary key (" ++ String.intercalate "," t.PK ++ ")"]) ++
                t.ForeignKeys.map fk_clause with
            | [] => ""
            | c :: cs => "\n    " ++ c ++ concat (cs.map fun d => ",\n    " ++ d)) ++
          ("\n)" ++ options_text t ++ ";\n" ++ index_lines t t.Indices) ∧
    (t.Columns = [] → t.PK ≠ [] →
      t.CreateStatements flags
        = ("create " ++ temporary_loop flags "" ++ "table " ++ t.Name ++ " (") ++
          ("\n    " ++ ("primary key (" ++ String.intercalate "," t.PK ++ ")") ++
            concat (t.ForeignKeys.map fun fk => ",\n    " ++ fk_clause fk)) ++
          ("\n)" ++ options_text t ++ ";\n" ++ index_lines t t.Indices)) := by
  have main : t.CreateStatements flags
        = ("create " ++ temporary_loop flags "" ++ "table " ++ t.Name ++ " (") ++
          (match t.Columns.map (fun f => row_text t.col_widths (column_row f)) ++
                (if t.PK = [] then []
                  else ["primary key (" ++ String.intercalate "," t.PK ++ ")"]) ++
                t.ForeignKeys.map fk_clause with
            | [] => ""
            | c :: cs => "\n    " ++ c ++ concat (cs.map fun d => ",\n    " ++ d)) ++
          ("\n)" ++ options_text t ++ ";\n" ++ index_lines t t.Indices) := by
    rw [CreateStatements_eq, ← Table.clauses_eq, ← clause_seq_true_eq]
    simp only [String.append_assoc]
  refine ⟨main, ?_⟩
  intro hc hpk
  rw [main, hc]
  simp [hpk, List.map_map, Function.comp_def]

/-- Witness for C8: a table without columns whose first clause is the primary key. -/
theorem C8_comma_prefixed_clauses_witness :
    ({ Name := "T", PK := ["a"], ForeignKeys := [{ ChildKey := ["a"], ParentTable := "P" }] }
        : Table).CreateStatements []
      = "create table T (\n    primary key (a),\n    foreign key (a) references P\n);\n" :=
  ((C8_comma_prefixed_clauses
      { Name := "T", PK := ["a"], ForeignKeys := [{ ChildKey := ["a"], ParentTable := "P" }] }
      []).2 rfl (by decide)).trans (by decide)

theorem clause_seq_split_indent (A B : List String) (x : String) :
    clause_seq true (A ++ x :: B)
      = clause_seq true A ++
          ((if A = [] then "" else ",") ++ ("\n    " ++ (x ++ clause_seq false B))) := by
  rw [clause_seq_append, clause_seq]
  cases A <;> (apply String.ext; simp [String.data_append])

/-- C9: the `i`-th foreign key of a table is written, as its own comma-prefixed
clause, as `foreign key (<child keys joined by ", ">) references <parent table>`,
then the parenthesised parent keys joined by `", "` exactly when `ParentKey` is
non-empty, then ` on delete <phrase>` exactly when `OnDelete` is not unset, then
` on update <phrase>` exactly when `OnUpdate` is not unset. -/
theorem C9_foreign_key_clause (t : Table) (flags : List Int) (i : Nat)
    (hi : i < t.ForeignKeys.length) :
    t.CreateStatements flags
        = ("create " ++ temporary_loop flags "" ++ "table " ++ t.Name ++ " (" ++
            clause_seq true (t.grid.map (row_text t.col_widths) ++ pk_clauses t.PK ++
              (t.ForeignKeys.take i).map fk_clause) ++
            (if t.grid.map (row_text t.col_widths) ++ pk_clauses t.PK ++
              (t.ForeignKeys.take i).map fk_clause = [] then "" else ",")) ++
          "\n    " ++
          ("foreign key (" ++ String.intercalate ", " (t.ForeignKeys[i]).ChildKey ++
            ") references " ++ (t.ForeignKeys[i]).ParentTable ++
            (if (t.ForeignKeys[i]).ParentKey ≠ []
              then "(" ++ String.intercalate ", " (t.ForeignKeys[i]).ParentKey ++ ")" else "") ++
            (if (t.ForeignKeys[i]).OnDelete ≠ 0
              then " on delete " ++ ForeignKeyAction.String (t.ForeignKeys[i]).OnDelete else "") ++
            (if (t.ForeignKeys[i]).OnUpdate ≠ 0
              then " on update " ++ ForeignKeyAction.String (t.ForeignKeys[i]).OnUpdate else "")) ++
          (clause_seq false ((t.ForeignKeys.drop (i + 1)).map fk_clause) ++
            "\n)" ++ options_text t ++ ";\n" ++ index_lines t t.Indices) := by
  have hsplit := list_split_at t.ForeignKeys i hi
  have hm := congrArg (List.map fk_clause) hsplit
  rw [List.map_append, List.map_cons] at hm
  have hcl : t.clauses
      = (t.grid.map (row_text t.col_widths) ++ pk_clauses t.PK ++
          (t.ForeignKeys.take i).map fk_clause) ++
        fk_clause t.ForeignKeys[i] :: (t.ForeignKeys.drop (i + 1)).map fk_clause := by
    unfold Table.clauses
    rw [hm]
    simp only [List.append_assoc]
  have hfk : fk_clause t.ForeignKeys[i]
      = "foreign key (" ++ String.intercalate ", " (t.ForeignKeys[i]).ChildKey ++
            ") references " ++ (t.ForeignKeys[i]).ParentTable ++
            (if (t.ForeignKeys[i]).ParentKey ≠ []
              then "(" ++ String.intercalate ", " (t.ForeignKeys[i]).ParentKey ++ ")" else "") ++
            (if (t.ForeignKeys[i]).OnDelete ≠ 0
              then " on delete " ++ ForeignKeyAction.String (t.ForeignKeys[i]).OnDelete else "") ++
            (if (t.ForeignKeys[i]).OnUpdate ≠ 0
              then " on update " ++ ForeignKeyAction.String (t.ForeignKeys[i]).OnUpdate
              else "") := by
    unfold fk_clause
    simp only [ne_eq, ite_not]
  rw [CreateStatements_eq, hcl, clause_seq_split_indent, ← hfk]
  simp only [String.append_assoc]

/-- Witness for C9: the foreign key of the example table. -/
theorem C9_foreign_key_clause_witness :
    exampleTable.CreateStatements []
      = "create table MyTable (\n    uid         uuid       not null,\n    name        text       not null,\n    created_at  timestamp  not null,\n    deleted_at  timestamp,\n    untyped,\n    age         int,\n    primary key (uid)," ++
        "\n    " ++
        "foreign key (uid) references other_table(uid) on delete cascade on update cascade" ++
        "\n) without rowid;\ncreate unique index idx_name on MyTable(name);\n" :=
  (C9_foreign_key_clause exampleTable [] 0 (by decide)).trans (by decide)

/-- C10: the table statement ends with the closing line, the options and `;`:
no option text when neither flag is set, ` without rowid` when only
`WithoutRowID` is set, ` strict` when only `Strict` is set and
` without rowid, strict` when both are set; only the index lines follow. -/
theorem C10_table_options (t : Table) (flags : List Int) :
    t.CreateStatements flags
        = ("create " ++ temporary_loop flags "" ++ "table " ++ t.Name ++ " (" ++
            clause_seq true t.clauses) ++
          "\n)" ++
          (if t.WithoutRowID then (if t.Strict then " without rowid, strict" else " without rowid")
            else (if t.Strict then " strict" else "")) ++
          ";\n" ++ index_lines t t.Indices ∧
    index_lines t [] = "" := by
  refine ⟨?_, rfl⟩
  rw [CreateStatements_eq]
  have ho : options_text t
      = (if t.WithoutRowID then (if t.Strict then " without rowid, strict" else " without rowid")
          else (if t.Strict then " strict" else "")) := by
    unfold options_text
    cases t.WithoutRowID <;> cases t.Strict <;> rfl
  rw [← ho]
  simp only [String.append_assoc]

/-- C11: a table with no columns, no primary key, no foreign keys, no storage
flags and no indices is written, with no flags, as `create table <name> (`, a
line break and `);`: the function is total and the body is empty. -/
theorem C11_zero_column_table (t : Table) (hc : t.Columns = []) (hpk : t.PK = [])
    (hfk : t.ForeignKeys = []) (hw : t.WithoutRowID = false) (hs : t.Strict = false)
    (hi : t.Indices = []) :
    t.CreateStatements [] = "create table " ++ t.Name ++ " (\n);\n" := by
  rw [CreateStatements_eq]
  have hcl : t.clauses = [] := by
    simp [Table.clauses, Table.grid_eq, hc, hpk, hfk, pk_clauses]
  have ho : options_text t = "" := by
    simp [options_text, hw, hs]
  rw [hcl, ho, hi]
  apply String.ext
  simp [temporary_loop, clause_seq, index_lines, concat, String.data_append]

/-- Witness for C11: the table `T` with nothing but its name. -/
theorem C11_zero_column_table_witness :
    ({ Name := "T" } : Table).CreateStatements [] = "create table T (\n);\n" :=
  C11_zero_column_table { Name := "T" } rfl rfl rfl rfl rfl rfl

/-- C12: the text written by `CreateStatements` is the table statement, ending
in `;` and a line break, followed by the concatenation over `t.Indices`, in
stored order, of `CreateIndexStatement idx` and a line break, and nothing else;
there is one such line per index. -/
theorem C12_index_lines_in_order (t : Table) (flags : List Int) :
    t.CreateStatements flags
        = ("create " ++ temporary_loop flags "" ++ "table " ++ t.Name ++ " (" ++
            clause_seq true t.clauses ++ "\n)" ++ options_text t ++ ";\n") ++
          concat (t.Indices.map fun idx => t.CreateIndexStatement idx ++ "\n") ∧
    (t.Indices.map fun idx => t.CreateIndexStatement idx ++ "\n").length = t.Indices.length ∧
    (∀ (out : String) (idx : Index) (rest : List Index),
      render_indices t (idx :: rest) out
        = render_indices t rest (out ++ t.CreateIndexStatement idx ++ "\n")) := by
  refine ⟨?_, by simp, ?_⟩
  · rw [CreateStatements_eq]
    simp only [index_lines, String.append_assoc]
  · intro out idx rest
    rw [render_indices]
    congr 1

/-- The six rows of the constant/phrase table. -/
theorem fkString_eq_iff (a : ForeignKeyAction) (s : String) :
    fkString a = (s, true) ↔
      (a = 0 ∧ s = "") ∨ (a = SetNull ∧ s = "set null") ∨ (a = SetDefault ∧ s = "set default") ∨
      (a = Cascade ∧ s = "cascade") ∨ (a = Restrict ∧ s = "restrict") ∨
      (a = NoAction ∧ s = "no action") := by
  unfold fkString
  by_cases h0 : a = 0
  · subst h0
    simp [SetNull, SetDefault, Cascade, Restrict, NoAction, eq_comm]
  by_cases h1 : a = SetNull
  · subst h1
    simp [SetNull, SetDefault, Cascade, Restrict, NoAction, eq_comm]
  by_cases h2 : a = SetDefault
  · subst h2
    simp [SetNull, SetDefault, Cascade, Restrict, NoAction, eq_comm]
  by_cases h3 : a = Cascade
  · subst h3
    simp [SetNull, SetDefault, Cascade, Restrict, NoAction, eq_comm]
  by_cases h4 : a = Restrict
  · subst h4
    simp [SetNull, SetDefault, Cascade, Restrict, NoAction, eq_comm]
  by_cases h5 : a = NoAction
  · subst h5
    simp [SetNull, SetDefault, Cascade, Restrict, NoAction, eq_comm]
  simp [h0, h1, h2, h3, h4, h5]

theorem fkValue_eq_iff (a : ForeignKeyAction) (s : String) :
    fkValue s = (a, true) ↔
      (a = 0 ∧ s = "") ∨ (a = SetNull ∧ s = "set null") ∨ (a = SetDefault ∧ s = "set default") ∨
      (a = Cascade ∧ s = "cascade") ∨ (a = Restrict ∧ s = "restrict") ∨
      (a = NoAction ∧ s = "no action") := by
  unfold fkValue
  by_cases h0 : s = ""
  · subst h0
    simp [eq_comm]
  by_cases h1 : s = "set null"
  · subst h1
    simp [eq_comm]
  by_cases h2 : s = "set default"
  · subst h2
    simp [eq_comm]
  by_cases h3 : s = "cascade"
  · subst h3
    simp [eq_comm]
  by_cases h4 : s = "restrict"
  · subst h4
    simp [eq_comm]
  by_cases h5 : s = "no action"
  · subst h5
    simp [eq_comm]
  simp [h0, h1, h2, h3, h4, h5]

theorem fkString_of_ok (a : ForeignKeyAction) (h : (fkString a).2 = true) :
    fkString a = ((fkString a).1, true) := by
  rw [← h]

theorem fkValue_of_ok (s : String) (h : (fkValue s).2 = true) :
    fkValue s = ((fkValue s).1, true) := by
  rw [← h]

/-- C13: `fkString a = (s, true)` holds exactly when `fkValue s = (a, true)`;
hence two recognised values with the same phrase are equal, every accepted
phrase is encoded back to itself, and the phrase of each non-zero constant is a
non-empty text of lowercase letters and single spaces. -/
theorem C13_phrase_bijection (a : ForeignKeyAction) (s : String) :
    (fkString a = (s, true) ↔ fkValue s = (a, true)) ∧
    (∀ b : ForeignKeyAction, (fkString a).2 = true → (fkString b).2 = true →
      (fkString a).1 = (fkString b).1 → a = b) ∧
    ((fkValue s).2 = true → fkString (fkValue s).1 = (s, true)) ∧
    (lower_phrase (fkString SetNull).1 = true ∧ lower_phrase (fkString SetDefault).1 = true ∧
      lower_phrase (fkString Cascade).1 = true ∧ lower_phrase (fkString Restrict).1 = true ∧
      lower_phrase (fkString NoAction).1 = true) := by
  have hiff : ∀ (x : ForeignKeyAction) (p : String),
      fkString x = (p, true) ↔ fkValue p = (x, true) := by
    intro x p
    rw [fkString_eq_iff, fkValue_eq_iff]
  refine ⟨hiff a s, ?_, ?_, by decide⟩
  · intro b ha hb hab
    have h1 := (hiff a _).mp (fkString_of_ok a ha)
    have h2 := (hiff b _).mp (fkString_of_ok b hb)
    rw [hab, h2] at h1
    exact (Prod.mk.inj h1).1.symm
  · intro hs
    exact (hiff _ s).mpr (fkValue_of_ok s hs)

/-- Witness for C13: `Cascade` and `Restrict` are recognised and their phrases
differ, and the accepted phrase `no action` is encoded back to itself. -/
theorem C13_phrase_bijection_witness :
    ((fkString Cascade).1 = (fkString Restrict).1 → Cascade = Restrict) ∧
    fkString (fkValue "no action").1 = ("no action", true) :=
  ⟨(C13_phrase_bijection Cascade "no action").2.1 Restrict rfl rfl,
    (C13_phrase_bijection Cascade "no action").2.2.1 rfl⟩

theorem fkString_invalid (a : Int) (h : ¬ (0 ≤ a ∧ a ≤ 5)) :
    fkString a = ("", false) := by
  have h0 : ¬ a = 0 := by omega
  have h1 : ¬ a = SetNull := by unfold SetNull; omega
  have h2 : ¬ a = SetDefault := by unfold SetDefault; omega
  have h3 : ¬ a = Cascade := by unfold Cascade; omega
  have h4 : ¬ a = Restrict := by unfold Restrict; omega
  have h5 : ¬ a = NoAction := by unfold NoAction; omega
  simp only [fkString, h0, h1, h2, h3, h4, h5, if_false]

theorem fkString_valid (a : Int) (h : 0 ≤ a ∧ a ≤ 5) :
    fkString a = (ForeignKeyAction.String a, true) ∧
    ForeignKeyAction.String a ∈
      ["", "set null", "set default", "cascade", "restrict", "no action"] := by
  obtain rfl | rfl | rfl | rfl | rfl | rfl :
      a = 0 ∨ a = 1 ∨ a = 2 ∨ a = 3 ∨ a = 4 ∨ a = 5 := by omega
  all_goals exact ⟨rfl, by decide⟩

/-- C14: `MarshalText`, `MarshalYAML` and `MarshalJSON` succeed exactly for the
six values 0 to 5; on success the first two yield `a.String()` and `MarshalJSON`
yields what `json.Marshal` makes of that phrase, which is the phrase between
double quotes when the library encodes the six phrases so; for every other value
all three fail with `ErrInvalidForeignKeyAction`. -/
theorem C14_encode_paths (json_Marshal : String → Except CodecError String)
    (a : ForeignKeyAction) :
    (0 ≤ a ∧ a ≤ 5 →
      MarshalText a = Except.ok (ForeignKeyAction.String a) ∧
      MarshalYAML a = Except.ok (ForeignKeyAction.String a) ∧
      MarshalJSON json_Marshal a = json_Marshal (ForeignKeyAction.String a) ∧
      ((∀ p ∈ ["", "set null", "set default", "cascade", "restrict", "no action"],
          json_Marshal p = Except.ok (json_quoted p)) →
        MarshalJSON json_Marshal a = Except.ok (json_quoted (ForeignKeyAction.String a)))) ∧
    (¬ (0 ≤ a ∧ a ≤ 5) →
      MarshalText a = Except.error CodecError.ErrInvalidForeignKeyAction ∧
      MarshalYAML a = Except.error CodecError.ErrInvalidForeignKeyAction ∧
      MarshalJSON json_Marshal a = Except.error CodecError.ErrInvalidForeignKeyAction) := by
  constructor
  · intro h
    obtain ⟨h1, h2⟩ := fkString_valid a h
    have hj : MarshalJSON json_Marshal a = json_Marshal (ForeignKeyAction.String a) := by
      simp only [MarshalJSON, h1, if_true]
    refine ⟨?_, ?_, hj, ?_⟩
    · simp only [MarshalText, h1, if_true]
    · simp only [MarshalYAML, h1, if_true]
    · intro hlib
      rw [hj, hlib _ h2]
  · intro h
    have h1 := fkString_invalid a h
    simp [MarshalText, MarshalYAML, MarshalJSON, h1]

/-- Witness for C14: `Cascade` with a `json.Marshal` that quotes its argument,
and the value 7 outside the enumeration. -/
theorem C14_encode_paths_witness :
    MarshalJSON (fun p => Except.ok (json_quoted p)) Cascade
        = Except.ok (json_quoted "cascade") ∧
    MarshalText 7 = Except.error CodecError.ErrInvalidForeignKeyAction :=
  ⟨((C14_encode_paths (fun p => Except.ok (json_quoted p)) Cascade).1 (by decide)).2.2.2
      (fun _ _ => rfl),
    ((C14_encode_paths (fun p => Except.ok (json_quoted p)) 7).2 (by decide)).1⟩

theorem measure_rows_cons (row : List String) (rest : List (List String)) (cw : List Nat) :
    measure_rows (row :: rest) cw = measure_rows rest (measure_cells row cw) := rfl

theorem measure_rows_length_ge (rows : List (List String)) :
    ∀ cw : List Nat, cw.length ≤ (measure_rows rows cw).length ∧
      ∀ row ∈ rows, row.length ≤ (measure_rows rows cw).length := by
  induction rows with
  | nil => intro cw; simp [measure_rows]
  | cons r rest ih =>
    intro cw
    obtain ⟨h1, h2⟩ := ih (measure_cells r cw)
    rw [measure_cells_length] at h1
    rw [measure_rows_cons]
    refine ⟨by omega, ?_⟩
    intro row hrow
    rcases List.mem_cons.mp hrow with h | h
    · subst h; omega
    · exact h2 row h

theorem measure_rows_length_attained (rows : List (List String)) :
    ∀ cw : List Nat, (measure_rows rows cw).length = cw.length ∨
      ∃ row ∈ rows, row.length = (measure_rows rows cw).length := by
  induction rows with
  | nil => intro cw; left; rfl
  | cons r rest ih =>
    intro cw
    rw [measure_rows_cons]
    rcases ih (measure_cells r cw) with h | ⟨row, hrow, h⟩
    · rw [measure_cells_length] at h
      by_cases hc : r.length ≤ cw.length
      · left; omega
      · right
        exact ⟨r, List.mem_cons_self _ _, by omega⟩
    · right
      exact ⟨row, List.mem_cons_of_mem _ hrow, h⟩

theorem measure_rows_attained (rows : List (List String)) :
    ∀ (cw : List Nat) (i : Nat), (measure_rows rows cw).getD i 0 = cw.getD i 0 ∨
      ∃ row ∈ rows, i < row.length ∧
        (row.getD i "").length = (measure_rows rows cw).getD i 0 := by
  induction rows with
  | nil => intro cw i; left; rfl
  | cons r rest ih =>
    intro cw i
    rw [measure_rows_cons]
    rcases ih (measure_cells r cw) i with h | ⟨row, hrow, h1, h2⟩
    · rw [measure_cells_getD] at h
      by_cases hi : i < r.length
      · rw [if_pos hi] at h
        by_cases hm : cw.getD i 0 ≥ (r.getD i "").length
        · left
          rw [h]
          omega
        · right
          refine ⟨r, List.mem_cons_self _ _, hi, ?_⟩
          rw [h]
          omega
      · rw [if_neg hi] at h
        left
        exact h
    · right
      exact ⟨row, List.mem_cons_of_mem _ hrow, h1, h2⟩

/-- C15: measuring the rows of a grid in order from the empty width table
gives a table as long as the longest row whose entry at every index is the
greatest logical length of the cells at that index (a bound that some row
attains); a cell of one two-byte character has width 1; one `measure_cells`
call never shortens the table, never decreases an entry and leaves the entries
from index `len(row)` on unchanged; the widths `CreateStatements` uses are the
ones so measured over its column rows. -/
theorem C15_widths_are_maxima (rows : List (List String)) :
    (∀ row ∈ rows, row.length ≤ (measure_rows rows []).length) ∧
    (rows ≠ [] → ∃ row ∈ rows, row.length = (measure_rows rows []).length) ∧
    (rows = [] → measure_rows rows [] = []) ∧
    (∀ row ∈ rows, ∀ (i : Nat) (hi : i < row.length),
      measure_cell row[i] ≤ (measure_rows rows []).getD i 0) ∧
    (∀ i, i < (measure_rows rows []).length →
      ∃ row ∈ rows, ∃ hi : i < row.length,
        measure_cell row[i] = (measure_rows rows []).getD i 0) ∧
    (measure_cell "é" = 1 ∧ "é".utf8ByteSize = 2) ∧
    (∀ (row : List String) (cw : List Nat),
      cw.length ≤ (measure_cells row cw).length ∧
      (∀ j, cw.getD j 0 ≤ (measure_cells row cw).getD j 0) ∧
      (∀ j, row.length ≤ j → (measure_cells row cw)[j]? = cw[j]?)) ∧
    (∀ t : Table, t.col_widths = measure_rows (t.Columns.map column_row) []) := by
  have hlen := (measure_rows_length_ge rows []).2
  have hdom : ∀ row ∈ rows, ∀ (i : Nat) (hi : i < row.length),
      measure_cell row[i] ≤ (measure_rows rows []).getD i 0 := by
    intro row hrow i hi
    have h := measure_rows_dominates rows [] row hrow i hi
    rw [List.getD_eq_getElem _ _ hi] at h
    exact h
  have hlatt : rows ≠ [] → ∃ row ∈ rows, row.length = (measure_rows rows []).length := by
    intro hne
    rcases measure_rows_length_attained rows [] with h | h
    · obtain ⟨r, rest, hr⟩ := List.exists_cons_of_ne_nil hne
      have hmem : r ∈ rows := by rw [hr]; exact List.mem_cons_self _ _
      have := hlen r hmem
      simp only [List.length_nil] at h
      exact ⟨r, hmem, by omega⟩
    · exact h
  refine ⟨hlen, hlatt, ?_, hdom, ?_, ⟨rfl, by decide⟩, ?_, Table.col_widths_eq⟩
  · intro h
    rw [h]
    rfl
  · intro i hi
    have hne : rows ≠ [] := by
      intro h
      rw [h] at hi
      simp [measure_rows] at hi
    rcases measure_rows_attained rows [] i with h | ⟨row, hrow, h1, h2⟩
    · obtain ⟨row, hrow, hl⟩ := hlatt hne
      have hi2 : i < row.length := by omega
      have hb := hdom row hrow i hi2
      have h0 : ([] : List Nat).getD i 0 = 0 := rfl
      rw [h0] at h
      exact ⟨row, hrow, hi2, by omega⟩
    · rw [List.getD_eq_getElem _ _ h1] at h2
      exact ⟨row, hrow, h1, h2⟩
  · intro row cw
    refine ⟨by rw [measure_cells_length]; omega, ?_, ?_⟩
    · intro j
      rw [measure_cells_getD]
      split <;> omega
    · intro j hj
      by_cases hjc : j < cw.length
      · have hj2 : j < (measure_cells row cw).length := by
          rw [measure_cells_length]; omega
        have h := measure_cells_getD row cw j
        rw [if_neg (by omega), List.getD_eq_getElem _ _ hj2, List.getD_eq_getElem _ _ hjc] at h
        rw [List.getElem?_eq_getElem hj2, List.getElem?_eq_getElem hjc, h]
      · rw [List.getElem?_eq_none (by rw [measure_cells_length]; omega),
          List.getElem?_eq_none (by omega)]

/-- Witness for C15: column 0 of a two-row grid. -/
theorem C15_widths_are_maxima_witness :
    ∃ row ∈ [["a", "bcd"], ["éé"]], ∃ hi : 0 < row.length,
      measure_cell row[0] = (measure_rows [["a", "bcd"], ["éé"]] []).getD 0 0 :=
  (C15_widths_are_maxima [["a", "bcd"], ["éé"]]).2.2.2.2.1 0 (by decide)

theorem cell_text_eq (cw : List Nat) (rowlen j : Nat) (cell : String) :
    cell_text cw rowlen j cell
      = (if j > 0 then "  " else "") ++ cell ++
          (if j + 1 < rowlen
            then String.mk (List.replicate (cw.getD j 0 - measure_cell cell) ' ') else "") := by
  unfold cell_text measure_cell
  congr 1
  by_cases hl : j + 1 < rowlen
  · by_cases hm : max (cw.getD j 0) cell.length > cell.length
    · rw [if_pos ⟨hm, hl⟩, if_pos hl]
      congr 2
      omega
    · rw [if_neg (fun h => hm h.1), if_pos hl]
      congr 2
      omega
  · rw [if_neg (fun h => hl h.2), if_neg hl]
    rfl

theorem row_text_ends_with_last (cw : List Nat) (row : List String) (hne : row ≠ []) :
    ∃ pre : String, row_text cw row = pre ++ row.getLast hne := by
  have hsplit : row = row.dropLast ++ [row.getLast hne] :=
    (List.dropLast_append_getLast hne).symm
  refine ⟨concat (row.dropLast.mapIdx fun j cell => cell_text cw row.length j cell) ++
    (if row.dropLast.length > 0 then "  " else ""), ?_⟩
  rw [row_text_eq]
  conv_lhs => rw [hsplit]
  rw [List.mapIdx_append, concat_append]
  have hlen : row.length = row.dropLast.length + 1 := by
    conv_lhs => rw [hsplit]
    simp
  have hlast : ¬ (row.dropLast.length + 1 < row.length) := by omega
  have hone : ([row.getLast hne].mapIdx fun j cell =>
      cell_text cw row.length (j + row.dropLast.length) cell)
      = [cell_text cw row.length (0 + row.dropLast.length) (row.getLast hne)] := rfl
  rw [← hsplit, hone, concat, concat, String.append_empty, Nat.zero_add, cell_text_eq,
    if_neg hlast, String.append_empty, String.append_assoc]

/-- The output of `CreateStatements` split around the `i`-th column row. -/
theorem CreateStatements_row_split (t : Table) (flags : List Int) (i : Nat)
    (hi : i < t.grid.length) :
    t.CreateStatements flags
        = ("create " ++ temporary_loop flags "" ++ "table " ++ t.Name ++ " (" ++
            clause_seq true ((t.grid.take i).map (row_text t.col_widths)) ++
            (if i = 0 then "" else ",")) ++
          "\n    " ++ row_text t.col_widths t.grid[i] ++
          (clause_seq false ((t.grid.drop (i + 1)).map (row_text t.col_widths) ++
              pk_clauses t.PK ++ t.ForeignKeys.map fk_clause) ++
            "\n)" ++ options_text t ++ ";\n" ++ index_lines t t.Indices) := by
  rw [CreateStatements_eq]
  have hsplit := list_split_at t.grid i hi
  have hm := congrArg (List.map (row_text t.col_widths)) hsplit
  rw [List.map_append, List.map_cons] at hm
  have hcl : t.clauses
      = (t.grid.take i).map (row_text t.col_widths) ++
          row_text t.col_widths t.grid[i] ::
            ((t.grid.drop (i + 1)).map (row_text t.col_widths) ++
              pk_clauses t.PK ++ t.ForeignKeys.map fk_clause) := by
    unfold Table.clauses
    rw [hm]
    simp only [List.append_assoc, List.cons_append]
  have hemp : ((t.grid.take i).map (row_text t.col_widths) = []) ↔ i = 0 := by
    rw [List.map_eq_nil_iff, List.take_eq_nil_iff]
    constructor
    · rintro (h | h)
      · exact h
      · rw [h] at hi; simp at hi
    · intro h; exact Or.inl h
  rw [hcl, clause_seq_split_indent]
  simp only [hemp, String.append_assoc]

theorem column_row_ne_nil (f : Column) : column_row f ≠ [] := by
  unfold column_row
  by_cases h1 : f.Type_ ≠ "" <;> by_cases h2 : (column_attrs f).length > 0 <;>
    by_cases h3 : ([f.Name] : List String).length < 2 <;> simp [h1, h2]

theorem grid_row_ne_nil (t : Table) (i : Nat) (hi : i < t.grid.length) : t.grid[i] ≠ [] := by
  have hmem : t.grid[i] ∈ t.Columns.map column_row := by
    rw [← Table.grid_eq]
    exact List.getElem_mem hi
  obtain ⟨f, _, hf⟩ := List.mem_map.mp hmem
  rw [← hf]
  exact column_row_ne_nil f

/-- C16: in every rendered column row each cell that is not the last one is
followed by exactly `w - len` spaces (`w` the width of its grid column, `len`
its logical length, `len ≤ w`), written by the 8-space block loop, which writes
exactly the requested number of spaces; the last cell is followed by nothing,
so the row text ends with the last cell; the row text is what `CreateStatements`
writes for that row. -/
theorem C16_exact_padding (t : Table) (flags : List Int) (i : Nat) (hi : i < t.grid.length) :
    row_text t.col_widths t.grid[i]
        = concat ((t.grid[i]).mapIdx fun j cell =>
            (if j > 0 then "  " else "") ++ cell ++
              (if j + 1 < (t.grid[i]).length
                then String.mk (List.replicate (t.col_widths.getD j 0 - measure_cell cell) ' ')
                else "")) ∧
    (∀ (j : Nat) (hj : j < (t.grid[i]).length),
      measure_cell (t.grid[i])[j] ≤ t.col_widths.getD j 0) ∧
    (∀ (out : String) (n : Nat), pad_loop out n = out ++ String.mk (List.replicate n ' ')) ∧
    (∃ pre : String,
      row_text t.col_widths t.grid[i] = pre ++ (t.grid[i]).getLast (grid_row_ne_nil t i hi)) ∧
    t.CreateStatements flags
        = ("create " ++ temporary_loop flags "" ++ "table " ++ t.Name ++ " (" ++
            clause_seq true ((t.grid.take i).map (row_text t.col_widths)) ++
            (if i = 0 then "" else ",")) ++
          "\n    " ++ row_text t.col_widths t.grid[i] ++
          (clause_seq false ((t.grid.drop (i + 1)).map (row_text t.col_widths) ++
              pk_clauses t.PK ++ t.ForeignKeys.map fk_clause) ++
            "\n)" ++ options_text t ++ ";\n" ++ index_lines t t.Indices) := by
  refine ⟨?_, ?_, fun out n => pad_loop_eq n out, row_text_ends_with_last _ _ _,
    CreateStatements_row_split t flags i hi⟩
  · rw [row_text_eq]
    have hf : (fun j cell => cell_text t.col_widths (t.grid[i]).length j cell)
        = (fun j cell => (if j > 0 then "  " else "") ++ cell ++
            (if j + 1 < (t.grid[i]).length
              then String.mk (List.replicate (t.col_widths.getD j 0 - measure_cell cell) ' ')
              else "")) := by
      funext j cell
      exact cell_text_eq _ _ _ _
    rw [hf]
  · intro j hj
    have h := grid_rows_dominated t i hi j hj
    rw [List.getD_eq_getElem _ _ hj] at h
    exact h

/-- Witness for C16: the row of the untyped generated column of the second
example, padded by 7 and by 9 spaces. -/
theorem C16_exact_padding_witness :
    row_text exampleTableGen.col_widths
        ["gen", "", "not null generated always as (name + " ++ json_quoted " " ++ " + age) virtual"]
      = "gen" ++ String.mk (List.replicate 7 ' ') ++ "  " ++ String.mk (List.replicate 9 ' ') ++
          "  " ++ "not null generated always as (name + " ++ json_quoted " " ++ " + age) virtual" :=
  ((C16_exact_padding exampleTableGen [] 6 (by decide)).1).trans (by decide)

theorem intercalate_go_prefix (sep : String) (l : List String) :
    ∀ acc : String, ∃ r : List Char, (String.intercalate.go acc sep l).data = acc.data ++ r := by
  induction l with
  | nil => intro acc; exact ⟨[], by simp [String.intercalate.go]⟩
  | cons a rest ih =>
    intro acc
    obtain ⟨r, hr⟩ := ih (acc ++ sep ++ a)
    refine ⟨sep.data ++ a.data ++ r, ?_⟩
    rw [String.intercalate.go, hr]
    simp [String.data_append]

theorem intercalate_ne_empty (sep x : String) (xs : List String) (hx : x ≠ "") :
    String.intercalate sep (x :: xs) ≠ "" := by
  intro h
  obtain ⟨r, hr⟩ := intercalate_go_prefix sep xs x
  have h2 : (String.intercalate sep (x :: xs)).data = x.data ++ r := hr
  rw [h] at h2
  have h3 : x.data = [] := by
    have h4 : ([] : List Char) = x.data ++ r := h2
    exact (List.append_eq_nil.mp h4.symm).1
  exact hx (String.ext h3)

theorem append_literal_ne_empty (p s : String) (hp : p.data ≠ []) : p ++ s ≠ "" := by
  intro h
  have h2 := congrArg String.data h
  rw [String.data_append] at h2
  exact hp (List.append_eq_nil.mp h2).1

theorem column_attrs_eq (f : Column) :
    column_attrs f
      = (if f.Nullable then [] else ["not null"]) ++
        (match f.Default with
          | some d => ["default " ++ d.SQLLiteral]
          | none => []) ++
        (match f.Generated with
          | some g => ["generated always as (" ++ g.Expression ++ ") " ++ g.Storage]
          | none => []) := by
  unfold column_attrs
  cases f.Nullable <;> cases f.Default <;> cases f.Generated <;> simp

theorem column_attrs_clause_ne_empty (f : Column) (h : column_attrs f ≠ []) :
    String.intercalate " " (column_attrs f) ≠ "" := by
  rw [column_attrs_eq] at h ⊢
  have hg : ∀ g : Generated,
      "generated always as (" ++ g.Expression ++ ") " ++ g.Storage ≠ "" := by
    intro g
    rw [String.append_assoc, String.append_assoc]
    exact append_literal_ne_empty _ _ (by decide)
  have hd : ∀ d : Literal, "default " ++ d.SQLLiteral ≠ "" :=
    fun d => append_literal_ne_empty _ _ (by decide)
  cases hn : f.Nullable <;> cases hdef : f.Default <;> cases hgen : f.Generated <;>
    simp only [hn, hdef, hgen, if_true, if_false, Bool.false_eq_true, List.nil_append,
      List.cons_append, List.append_nil] at h ⊢
  · exact intercalate_ne_empty _ _ _ (by decide)
  · exact intercalate_ne_empty _ _ _ (by decide)
  · exact intercalate_ne_empty _ _ _ (by decide)
  · exact intercalate_ne_empty _ _ _ (by decide)
  · exact absurd rfl h
  · exact intercalate_ne_empty _ _ _ (hg _)
  · exact intercalate_ne_empty _ _ _ (hd _)
  · exact intercalate_ne_empty _ _ _ (hd _)

/-- C18: the grid row of a column is its name, then the type when non-empty,
then, when the attribute clause is non-empty, an empty placeholder when the type
was omitted and the attribute clause; the clause joins with single spaces, in
this order, `not null`, `default <SQLLiteral>` and `generated always as
(<expression>) <storage>`; a row has 1 to 3 cells and the clause, when present,
is the cell at index 2, as in the row of the untyped generated column `gen` of
the second example. -/
theorem C18_row_shape (f : Column) :
    column_row f
        = [f.Name] ++ (if f.Type_ ≠ "" then [f.Type_] else []) ++
          (if String.intercalate " " (column_attrs f) ≠ "" then
            (if f.Type_ = "" then [""] else []) ++ [String.intercalate " " (column_attrs f)]
          else []) ∧
    column_attrs f
        = (if f.Nullable then [] else ["not null"]) ++
          (match f.Default with
            | some d => ["default " ++ d.SQLLiteral]
            | none => []) ++
          (match f.Generated with
            | some g => ["generated always as (" ++ g.Expression ++ ") " ++ g.Storage]
            | none => []) ∧
    (1 ≤ (column_row f).length ∧ (column_row f).length ≤ 3) ∧
    (String.intercalate " " (column_attrs f) ≠ "" →
      (column_row f).length = 3 ∧
      (column_row f)[2]? = some (String.intercalate " " (column_attrs f))) ∧
    (∀ t : Table, t.grid = t.Columns.map column_row) ∧
    exampleTableGen.CreateStatements [] =
      "create table MyTable (\n    uid         uuid       not null,\n    name        text       not null,\n    created_at  timestamp  not null,\n    deleted_at  timestamp,\n    untyped,\n    age         int,\n    gen                    not null generated always as (name + " ++
        json_quoted " " ++
        " + age) virtual,\n    primary key (uid),\n    foreign key (uid) references other_table(uid) on delete cascade on update cascade\n) without rowid;\ncreate unique index idx_name on MyTable(name);\n" := by
  have hiff : (String.intercalate " " (column_attrs f) ≠ "") ↔ (column_attrs f).length > 0 := by
    constructor
    · intro h
      cases hc : column_attrs f with
      | nil => rw [hc] at h; exact absurd rfl h
      | cons a rest => simp
    · intro h
      apply column_attrs_clause_ne_empty
      intro hc
      rw [hc] at h
      simp at h
  have hrow : column_row f
        = [f.Name] ++ (if f.Type_ ≠ "" then [f.Type_] else []) ++
          (if String.intercalate " " (column_attrs f) ≠ "" then
            (if f.Type_ = "" then [""] else []) ++ [String.intercalate " " (column_attrs f)]
          else []) := by
    rw [if_congr hiff rfl rfl]
    unfold column_row
    by_cases h1 : f.Type_ = "" <;> by_cases h2 : (column_attrs f).length > 0 <;>
      simp [h1, h2]
  refine ⟨hrow, column_attrs_eq f, ?_, ?_, Table.grid_eq, by decide⟩
  · rw [hrow]
    by_cases h1 : f.Type_ = "" <;>
      by_cases h2 : String.intercalate " " (column_attrs f) ≠ "" <;> simp [h1, h2]
  · intro h2
    rw [hrow]
    by_cases h1 : f.Type_ = "" <;> simp [h1, h2]

/-- Witness for C18: the row of the column `gen` of the second example. -/
theorem C18_row_shape_witness :
    (column_row genColumn)[2]?
      = some ("not null generated always as (name + " ++ json_quoted " " ++ " + age) virtual") :=
  (((C18_row_shape genColumn).2.2.2.1 (by decide)).2).trans (by decide)

/-- The output of `CreateStatements` split around the clause of the `i`-th foreign key. -/
theorem CreateStatements_fk_split (t : Table) (flags : List Int) (i : Nat)
    (hi : i < t.ForeignKeys.length) :
    t.CreateStatements flags
      = t.before_fk flags i ++ "\n    " ++ fk_clause t.ForeignKeys[i] ++ t.after_fk i := by
  have hsplit := list_split_at t.ForeignKeys i hi
  have hm := congrArg (List.map fk_clause) hsplit
  rw [List.map_append, List.map_cons] at hm
  have hcl : t.clauses
      = (t.grid.map (row_text t.col_widths) ++ pk_clauses t.PK ++
          (t.ForeignKeys.take i).map fk_clause) ++
        fk_clause t.ForeignKeys[i] :: (t.ForeignKeys.drop (i + 1)).map fk_clause := by
    unfold Table.clauses
    rw [hm]
    simp only [List.append_assoc]
  rw [CreateStatements_eq, hcl, clause_seq_split_indent]
  unfold Table.before_fk Table.after_fk
  simp only [String.append_assoc]

theorem String_invalid_iff (a : Int) :
    ForeignKeyAction.String a = "<INVALID>" ↔ ¬ (0 ≤ a ∧ a ≤ 5) := by
  constructor
  · intro h hv
    obtain rfl | rfl | rfl | rfl | rfl | rfl :
        a = 0 ∨ a = 1 ∨ a = 2 ∨ a = 3 ∨ a = 4 ∨ a = 5 := by omega
    all_goals revert h; decide
  · intro h
    simp only [ForeignKeyAction.String, fkString_invalid a h]
    rfl

/-- C19: a foreign key whose `OnDelete` (respectively `OnUpdate`) lies outside
0..5 is still written as a clause, with ` on delete <INVALID>` (respectively
` on update <INVALID>`) at the place of the action phrase; `String()` returns
`<INVALID>` exactly for the values `fkString` does not recognise. -/
theorem C19_invalid_action_rendered (t : Table) (flags : List Int) (i : Nat)
    (hi : i < t.ForeignKeys.length) :
    (¬ (0 ≤ (t.ForeignKeys[i]).OnDelete ∧ (t.ForeignKeys[i]).OnDelete ≤ 5) →
      t.CreateStatements flags
        = t.before_fk flags i ++ "\n    " ++
          ("foreign key (" ++ String.intercalate ", " (t.ForeignKeys[i]).ChildKey ++
            ") references " ++ (t.ForeignKeys[i]).ParentTable ++
            (if (t.ForeignKeys[i]).ParentKey = [] then ""
              else "(" ++ String.intercalate ", " (t.ForeignKeys[i]).ParentKey ++ ")") ++
            " on delete <INVALID>" ++
            (if (t.ForeignKeys[i]).OnUpdate = 0 then ""
              else " on update " ++ ForeignKeyAction.String (t.ForeignKeys[i]).OnUpdate)) ++
          t.after_fk i) ∧
    (¬ (0 ≤ (t.ForeignKeys[i]).OnUpdate ∧ (t.ForeignKeys[i]).OnUpdate ≤ 5) →
      t.CreateStatements flags
        = t.before_fk flags i ++ "\n    " ++
          ("foreign key (" ++ String.intercalate ", " (t.ForeignKeys[i]).ChildKey ++
            ") references " ++ (t.ForeignKeys[i]).ParentTable ++
            (if (t.ForeignKeys[i]).ParentKey = [] then ""
              else "(" ++ String.intercalate ", " (t.ForeignKeys[i]).ParentKey ++ ")") ++
            (if (t.ForeignKeys[i]).OnDelete = 0 then ""
              else " on delete " ++ ForeignKeyAction.String (t.ForeignKeys[i]).OnDelete) ++
            " on update <INVALID>") ++
          t.after_fk i) ∧
    (∀ a : ForeignKeyAction,
      (ForeignKeyAction.String a = "<INVALID>" ↔ (fkString a).2 = false) ∧
      ((fkString a).2 = false ↔ ¬ (0 ≤ a ∧ a ≤ 5))) := by
  refine ⟨?_, ?_, ?_⟩
  · intro h
    have h0 : ¬ (t.ForeignKeys[i]).OnDelete = 0 := by
      intro e
      rw [e] at h
      exact h (by decide)
    rw [CreateStatements_fk_split t flags i hi, fk_clause, if_neg h0,
      (String_invalid_iff _).mpr h]
    rfl
  · intro h
    have h0 : ¬ (t.ForeignKeys[i]).OnUpdate = 0 := by
      intro e
      rw [e] at h
      exact h (by decide)
    rw [CreateStatements_fk_split t flags i hi, fk_clause, if_neg h0,
      (String_invalid_iff _).mpr h]
    rfl
  · intro a
    have h2 : (fkString a).2 = false ↔ ¬ (0 ≤ a ∧ a ≤ 5) := by
      constructor
      · intro h hv
        rw [(fkString_valid a hv).1] at h
        cases h
      · intro h
        rw [fkString_invalid a h]
    exact ⟨(String_invalid_iff a).trans h2.symm, h2⟩

/-- Witness for C19: a foreign key with `OnDelete = 9`. -/
theorem C19_invalid_action_rendered_witness :
    ({ Name := "T", ForeignKeys := [{ ChildKey := ["a"], ParentTable := "P", OnDelete := 9 }] }
        : Table).CreateStatements []
      = "create table T (\n    foreign key (a) references P on delete <INVALID>\n);\n" :=
  ((C19_invalid_action_rendered
      { Name := "T", ForeignKeys := [{ ChildKey := ["a"], ParentTable := "P", OnDelete := 9 }] }
      [] 0 (by decide)).1 (by decide)).trans (by decide)

theorem FindColumn_loop_none (n : String) (cols : List Column) :
    FindColumn_loop n cols = (none, false) ↔ ∀ c ∈ cols, c.Name ≠ n := by
  induction cols with
  | nil => simp [FindColumn_loop]
  | cons c rest ih =>
    rw [FindColumn_loop]
    by_cases h : c.Name = n
    · simp [h]
    · simp [h, ih]

theorem FindColumn_loop_cases (n : String) (cols : List Column) :
    FindColumn_loop n cols = (none, false) ∨
    ∃ c pre post, FindColumn_loop n cols = (some c, true) ∧ cols = pre ++ c :: post ∧
      c.Name = n ∧ ∀ d ∈ pre, d.Name ≠ n := by
  induction cols with
  | nil => left; rfl
  | cons c rest ih =>
    rw [FindColumn_loop]
    by_cases h : c.Name = n
    · right
      exact ⟨c, [], rest, by simp [h], rfl, h, by simp⟩
    · rw [if_neg h]
      rcases ih with h1 | ⟨d, pre, post, h1, h2, h3, h4⟩
      · left; exact h1
      · right
        refine ⟨d, c :: pre, post, h1, by rw [h2]; rfl, h3, ?_⟩
        intro e he
        rcases List.mem_cons.mp he with h5 | h5
        · rw [h5]; exact h
        · exact h4 e h5

theorem ColumnMapping_loop_append (xs ys : List Column) :
    ∀ m : String → Option Column,
      ColumnMapping_loop (xs ++ ys) m = ColumnMapping_loop ys (ColumnMapping_loop xs m) := by
  induction xs with
  | nil => intro m; rfl
  | cons x rest ih => intro m; exact ih _

theorem ColumnMapping_loop_absent (n : String) (cols : List Column) :
    ∀ m : String → Option Column, (∀ c ∈ cols, c.Name ≠ n) →
      ColumnMapping_loop cols m n = m n := by
  induction cols with
  | nil => intro m _; rfl
  | cons c rest ih =>
    intro m h
    have hc : ¬ n = c.Name := fun e => h c (List.mem_cons_self _ _) e.symm
    rw [ColumnMapping_loop, ih _ (fun d hd => h d (List.mem_cons_of_mem _ hd))]
    simp [hc]

theorem ColumnMapping_loop_last (n : String) (pre post : List Column) (c : Column)
    (m : String → Option Column) (hc : c.Name = n) (hpost : ∀ d ∈ post, d.Name ≠ n) :
    ColumnMapping_loop (pre ++ c :: post) m n = some c := by
  rw [ColumnMapping_loop_append, ColumnMapping_loop, ColumnMapping_loop_absent n post _ hpost]
  simp [hc]

theorem ColumnMapping_loop_cases (n : String) (cols : List Column) :
    ((∀ c ∈ cols, c.Name ≠ n) ∧ ColumnMapping_loop cols (fun _ => none) n = none) ∨
    ∃ c pre post, ColumnMapping_loop cols (fun _ => none) n = some c ∧ cols = pre ++ c :: post ∧
      c.Name = n ∧ ∀ d ∈ post, d.Name ≠ n := by
  induction cols using List.reverseRecOn with
  | nil => left; exact ⟨by simp, rfl⟩
  | append_singleton rest c ih =>
    by_cases h : c.Name = n
    · right
      exact ⟨c, rest, [], ColumnMapping_loop_last n rest [] c _ h (by simp), rfl, h, by simp⟩
    · have hstep : ColumnMapping_loop (rest ++ [c]) (fun _ => none) n
          = ColumnMapping_loop rest (fun _ => none) n := by
        rw [ColumnMapping_loop_append, ColumnMapping_loop, ColumnMapping_loop]
        have hn : ¬ n = c.Name := fun e => h e.symm
        simp [hn]
      rcases ih with ⟨h1, h2⟩ | ⟨d, pre, post, h1, h2, h3, h4⟩
      · left
        refine ⟨?_, by rw [hstep, h2]⟩
        intro e he
        rcases List.mem_append.mp he with h5 | h5
        · exact h1 e h5
        · rw [List.mem_singleton.mp h5]; exact h
      · right
        refine ⟨d, pre, post ++ [c], by rw [hstep, h1], by rw [h2]; simp, h3, ?_⟩
        intro e he
        rcases List.mem_append.mp he with h5 | h5
        · exact h4 e h5
        · rw [List.mem_singleton.mp h5]; exact h

theorem lookup_differ_dup (cols : List Column) (n : String)
    (h : ColumnMapping_loop cols (fun _ => none) n ≠ (FindColumn_loop n cols).1) :
    ∃ l1 a l2 b l3, cols = l1 ++ a :: (l2 ++ b :: l3) ∧ a.Name = n ∧ b.Name = n := by
  rcases FindColumn_loop_cases n cols with h1 | ⟨c, pre, post, h1, h2, h3, h4⟩
  · exfalso
    apply h
    rw [h1, ColumnMapping_loop_absent n cols _ ((FindColumn_loop_none n cols).mp h1)]
  · by_cases hpost : ∀ d ∈ post, d.Name ≠ n
    · exfalso
      apply h
      rw [h1]
      conv_lhs => rw [h2]
      exact ColumnMapping_loop_last n pre post c _ h3 hpost
    · push_neg at hpost
      obtain ⟨d, hd, hdn⟩ := hpost
      obtain ⟨s, u, hsu⟩ := List.append_of_mem hd
      exact ⟨pre, c, s, d, u, by rw [h2, hsu], h3, hdn⟩

/-- C20: `FindColumn n` returns `(nil, false)` exactly when no column is named
`n` and otherwise `(c, true)` for the first column named `n` in stored order;
the keys of `ColumnMapping()` are exactly the column names and each is mapped to
the last column carrying it; the two lookups agree for every name when the
column names are pairwise distinct, differ only for a duplicated name, and do
differ on a table with two columns named `a`. -/
theorem C20_lookup_helpers (t : Table) (n : String) :
    (t.FindColumn n = (none, false) ↔ ∀ c ∈ t.Columns, c.Name ≠ n) ∧
    (t.FindColumn n = (none, false) ∨
      ∃ c pre post, t.FindColumn n = (some c, true) ∧ t.Columns = pre ++ c :: post ∧
        c.Name = n ∧ ∀ d ∈ pre, d.Name ≠ n) ∧
    ((t.ColumnMapping n).isSome = true ↔ ∃ c ∈ t.Columns, c.Name = n) ∧
    (∀ c, t.ColumnMapping n = some c →
      ∃ pre post, t.Columns = pre ++ c :: post ∧ c.Name = n ∧ ∀ d ∈ post, d.Name ≠ n) ∧
    ((t.Columns.map Column.Name).Nodup → t.ColumnMapping n = (t.FindColumn n).1) ∧
    (t.ColumnMapping n ≠ (t.FindColumn n).1 →
      ∃ l1 a l2 b l3, t.Columns = l1 ++ a :: (l2 ++ b :: l3) ∧ a.Name = n ∧ b.Name = n) ∧
    (({ Name := "T", Columns := [{ Name := "a", Type_ := "x" }, { Name := "a", Type_ := "y" }] }
          : Table).FindColumn "a" = (some { Name := "a", Type_ := "x" }, true) ∧
      ({ Name := "T", Columns := [{ Name := "a", Type_ := "x" }, { Name := "a", Type_ := "y" }] }
          : Table).ColumnMapping "a" = some { Name := "a", Type_ := "y" }) := by
  refine ⟨FindColumn_loop_none n t.Columns, FindColumn_loop_cases n t.Columns, ?_, ?_, ?_,
    lookup_differ_dup t.Columns n, by decide⟩
  · rcases ColumnMapping_loop_cases n t.Columns with ⟨h1, h2⟩ | ⟨c, pre, post, h1, h2, h3, _⟩
    · constructor
      · intro h
        unfold Table.ColumnMapping at h
        rw [h2] at h
        cases h
      · rintro ⟨c, hc, hn⟩
        exact absurd hn (h1 c hc)
    · constructor
      · intro _
        exact ⟨c, by rw [h2]; simp, h3⟩
      · intro _
        unfold Table.ColumnMapping
        rw [h1]
        rfl
  · intro c hc
    rcases ColumnMapping_loop_cases n t.Columns with ⟨_, h2⟩ | ⟨d, pre, post, h1, h2, h3, h4⟩
    · unfold Table.ColumnMapping at hc
      rw [h2] at hc
      cases hc
    · unfold Table.ColumnMapping at hc
      rw [h1] at hc
      cases hc
      exact ⟨pre, post, h2, h3, h4⟩
  · intro hnd
    by_contra hne
    obtain ⟨l1, a, l2, b, l3, hsplit, ha, hb⟩ := lookup_differ_dup t.Columns n hne
    rw [hsplit] at hnd
    simp [List.nodup_append, ha, hb] at hnd

/-- Witness for C20: the columns of the example table have distinct names, so
both lookups of `age` give the same column. -/
theorem C20_lookup_helpers_witness :
    exampleTable.ColumnMapping "age" = (exampleTable.FindColumn "age").1 :=
  (C20_lookup_helpers exampleTable "age").2.2.2.2.1 (by decide)

end Schema
